import Mathlib

/-!
# roci: dependency-protocol parsing and RPM metadata assembly

A shallow embedding of `pkg/rpmdeps.go` and of the metadata functions of
`bin/roci.go`, followed by the properties proved about them.

Conventions of the embedding

* A Go `string` is a sequence of bytes: `GoString := List Nat`, every element a
  byte value (0..255).  Indexing `s[0]` and slicing `s[1:]` are head and tail.
* A Go function returning `(T, error)` returns a pair `T × Option err`; a function
  returning `(*T, error)` whose pointer is `nil` on failure returns `Except err T`.
* Calls that leave the repository (rpmpack, the image store, buildah) and the
  Unicode table of printable runes are fields of the structures `External` and
  `BuildEnv`, or of the objects they return, so every theorem holds for all
  behaviours of those libraries.  An external object is the record of what its
  methods return.
* The iteration order of a Go map is unspecified: each `range` over a map takes
  a `RangeOrder`, an arbitrary rearrangement of the keys.
-/

namespace Roci

/-- A Go string: a sequence of bytes. -/
abbrev GoString := List Nat

/-- The bytes of an ASCII literal. -/
def ascii (s : String) : GoString := s.data.map Char.toNat

/-! ## Go standard library: `strings`, `unicode`, `sort` -/

/-- The six ASCII white-space bytes of `strings.TrimSpace`'s fast path:
tab, line feed, vertical tab, form feed, carriage return, space. -/
def asciiSpace (b : Nat) : Bool :=
  b == 9 || b == 10 || b == 11 || b == 12 || b == 13 || b == 32

/-- Width in bytes of the white-space rune (`unicode.IsSpace`) whose UTF-8 encoding
the string starts with, 0 when it starts with none.  Besides the ASCII ones these
are U+0085, U+00A0, U+1680, U+2000..U+200A, U+2028, U+2029, U+202F, U+205F, U+3000. -/
def leadingSpace (s : GoString) : Nat :=
  match s with
  | [] => 0
  | b :: t =>
    if asciiSpace b then 1
    else match t with
      | [] => 0
      | c :: u =>
        if b == 0xC2 then (if c == 0x85 || c == 0xA0 then 2 else 0)
        else match u with
          | [] => 0
          | d :: _ =>
            if b == 0xE1 && c == 0x9A && d == 0x80 then 3
            else if b == 0xE2 && c == 0x80 &&
                ((0x80 ≤ d && d ≤ 0x8A) || d == 0xA8 || d == 0xA9 || d == 0xAF) then 3
            else if b == 0xE2 && c == 0x81 && d == 0x9F then 3
            else if b == 0xE3 && c == 0x80 && d == 0x80 then 3
            else 0

/-- Width in bytes of the white-space rune the string ends with (decoding the last
rune as `utf8.DecodeLastRuneInString` does), 0 when it ends with none.  The argument
is the string reversed. -/
def trailingSpace (rev : GoString) : Nat :=
  match rev with
  | [] => 0
  | d :: t =>
    if asciiSpace d then 1
    else match t with
      | [] => 0
      | c :: u =>
        if c == 0xC2 then (if d == 0x85 || d == 0xA0 then 2 else 0)
        else match u with
          | [] => 0
          | b :: _ =>
            if b == 0xE1 && c == 0x9A && d == 0x80 then 3
            else if b == 0xE2 && c == 0x80 &&
                ((0x80 ≤ d && d ≤ 0x8A) || d == 0xA8 || d == 0xA9 || d == 0xAF) then 3
            else if b == 0xE2 && c == 0x81 && d == 0x9F then 3
            else if b == 0xE3 && c == 0x80 && d == 0x80 then 3
            else 0

/-- Drop white-space runes from the front, at most `fuel` of them. -/
def trimLeftAux : Nat → GoString → GoString
  | 0, s => s
  | fuel + 1, s =>
    if leadingSpace s = 0 then s else trimLeftAux fuel (s.drop (leadingSpace s))

/-- Drop white-space runes from the front of the reversed string, i.e. from the
back of the string, at most `fuel` of them. -/
def trimRightAux : Nat → GoString → GoString
  | 0, rev => rev
  | fuel + 1, rev =>
    if trailingSpace rev = 0 then rev else trimRightAux fuel (rev.drop (trailingSpace rev))

/-- Go `strings.TrimSpace`: the string without its leading and trailing white space,
as defined by Unicode.  The fuel is the length, which bounds the number of runes. -/
def TrimSpace (s : GoString) : GoString :=
  let l := trimLeftAux s.length s
  (trimRightAux l.length l.reverse).reverse

/-- Go `strings.SplitSeq(s, sep)` for a one-byte separator: the substrings of `s`
between occurrences of `sep`, in order; one empty substring for the empty string. -/
def SplitSeq : GoString → Nat → List GoString
  | [], _ => [[]]
  | b :: s, sep =>
    if b = sep then [] :: SplitSeq s sep
    else match SplitSeq s sep with
      | [] => [[b]]
      | l :: ls => (b :: l) :: ls

/-- Go `unicode.IsDigit(rune(b))` for a byte `b`: runes up to U+00FF are digits
exactly when they are `'0'..'9'`. -/
def IsDigit (b : Nat) : Bool := 48 ≤ b && b ≤ 57

/-- Go's `<` on strings: byte-wise lexicographic order. -/
def strLess : GoString → GoString → Bool
  | [], [] => false
  | [], _ :: _ => true
  | _ :: _, [] => false
  | a :: s, b :: t => if a < b then true else if b < a then false else strLess s t

/-- The order `a ≤ b` of Go strings, as a relation. -/
def strLE (a b : GoString) : Prop := strLess b a = false

instance strLE.decidable : DecidableRel strLE := fun a b =>
  inferInstanceAs (Decidable (strLess b a = false))

/-- Go `sort.Strings`: the strings in increasing order. -/
def SortStrings (keys : List GoString) : List GoString :=
  keys.insertionSort strLE

/-- The order in which one `range` loop visits the keys of a map: some rearrangement
of them, not specified by the language. -/
structure RangeOrder where
  iter : List GoString → List GoString
  perm : ∀ keys, (iter keys).Perm keys

/-! ## Go standard library: `strconv.Quote`, the rendering of the verb `%q` -/

/-- The table `lowerhex` of `strconv`: the hexadecimal digit of a value below 16. -/
def lowerhex (n : Nat) : Nat := if n < 10 then 48 + n else 87 + n

/-- The part of `utf8.DecodeRuneInString` after the look-up of the first byte `s0` in
the table `first`: `sz` is the size of the encoding, `lo` and `hi` bound the second byte,
`t` holds the bytes after the first. -/
def decodeContinuation (sz lo hi s0 : Nat) (t : GoString) : Nat × Nat :=
  if t.length + 1 < sz then (0xFFFD, 1)
  else match t with
    | [] => (0xFFFD, 1)
    | s1 :: u =>
      if s1 < lo ∨ hi < s1 then (0xFFFD, 1)
      else if sz ≤ 2 then (s0 % 32 * 64 + s1 % 64, 2)
      else match u with
        | [] => (0xFFFD, 1)
        | s2 :: v =>
          if s2 < 0x80 ∨ 0xBF < s2 then (0xFFFD, 1)
          else if sz ≤ 3 then (s0 % 16 * 4096 + s1 % 64 * 64 + s2 % 64, 3)
          else match v with
            | [] => (0xFFFD, 1)
            | s3 :: _ =>
              if s3 < 0x80 ∨ 0xBF < s3 then (0xFFFD, 1)
              else (s0 % 8 * 262144 + s1 % 64 * 4096 + s2 % 64 * 64 + s3 % 64, 4)

/-- Go `utf8.DecodeRuneInString`: the rune the string starts with and its width in
bytes; `(0xFFFD, 1)` for an invalid or incomplete encoding, `(0xFFFD, 0)` for the empty
string. -/
def DecodeRuneInString (s : GoString) : Nat × Nat :=
  match s with
  | [] => (0xFFFD, 0)
  | s0 :: t =>
    if s0 < 0x80 then (s0, 1)
    else if s0 < 0xC2 ∨ 0xF4 < s0 then (0xFFFD, 1)
    else
      decodeContinuation
        (if s0 < 0xE0 then 2 else if s0 < 0xF0 then 3 else 4)
        (if s0 = 0xE0 then 0xA0 else if s0 = 0xF0 then 0x90 else 0x80)
        (if s0 = 0xED then 0x9F else if s0 = 0xF4 then 0x8F else 0xBF)
        s0 t

/-- Go `strconv.IsPrint`: explicit up to U+00FF, the Unicode table above. -/
def IsPrint (table : Nat → Bool) (r : Nat) : Bool :=
  if r ≤ 0xFF then
    if 0x20 ≤ r ∧ r ≤ 0x7E then true
    else if 0xA1 ≤ r ∧ r ≤ 0xFF then r != 0xAD
    else false
  else table r

/-- The hexadecimal digits of `r`, `digits` of them, most significant first. -/
def hexDigits (r : Nat) : Nat → GoString
  | 0 => []
  | digits + 1 => lowerhex (r / 16 ^ digits % 16) :: hexDigits r digits

/-- Go `strconv.appendEscapedRune` for the quote `"`, neither ASCII-only nor
graphic-only: what `Quote` writes for the rune `r`, of which `bytes` is the encoding. -/
def appendEscapedRune (table : Nat → Bool) (r : Nat) (bytes : GoString) : GoString :=
  if r = 34 ∨ r = 92 then [92, r]                 -- the quote and the backslash
  else if IsPrint table r then bytes               -- utf8.AppendRune(buf, r)
  else if r = 7 then [92, 97]                      -- \a
  else if r = 8 then [92, 98]                      -- \b
  else if r = 12 then [92, 102]                    -- \f
  else if r = 10 then [92, 110]                    -- \n
  else if r = 13 then [92, 114]                    -- \r
  else if r = 9 then [92, 116]                     -- \t
  else if r = 11 then [92, 118]                    -- \v
  else if r < 32 ∨ r = 0x7F then [92, 120] ++ hexDigits r 2
  else if 0x10FFFF < r ∨ (0xD800 ≤ r ∧ r ≤ 0xDFFF) then [92, 117] ++ hexDigits 0xFFFD 4
  else if r < 0x10000 then [92, 117] ++ hexDigits r 4
  else [92, 85] ++ hexDigits r 8

/-- The loop of `strconv.appendQuotedWith` over the runes of the string, at most `fuel`
of them. -/
def quoteLoop (table : Nat → Bool) : Nat → GoString → GoString
  | 0, _ => []
  | fuel + 1, s =>
    match s with
    | [] => []
    | s0 :: _ =>
      let decoded := if s0 ≥ 0x80 then DecodeRuneInString s else (s0, 1)
      let r := decoded.1
      let width := decoded.2
      (if width = 1 ∧ r = 0xFFFD then [92, 120, lowerhex (s0 / 16), lowerhex (s0 % 16)]
        else appendEscapedRune table r (s.take width)) ++
        quoteLoop table fuel (s.drop width)

/-- Go `strconv.Quote`, which renders a string for the verb `%q`: the string in double
quotes, with quote and backslash escaped by a backslash and the runes that are not
printable written as escape sequences.  The fuel is the length, which bounds the number
of runes. -/
def Quote (table : Nat → Bool) (s : GoString) : GoString :=
  34 :: quoteLoop table s.length s ++ [34]

/-! ## Errors -/

/-- The two causes carried by `*strconv.NumError`. -/
inductive NumErr
  | ErrSyntax
  | ErrRange
  deriving DecidableEq

/-- Go `*strconv.NumError`. -/
structure NumError where
  Func : GoString
  Num : GoString
  Err : NumErr
  deriving DecidableEq

/-- Error values returned by the functions of this repository; `ε` is the type of
the errors of the external libraries. -/
inductive GoError (ε : Type)
  /-- an error returned by an external call, passed on unchanged -/
  | ext (err : ε)
  /-- an error of `strconv.ParseInt` -/
  | num (err : NumError)
  /-- the value of `fmt.Errorf` with a `%w` verb: `&wrapError{msg, err}` -/
  | wrapError (msg : GoString) (err : ε)
  /-- a run-time panic `index out of range [index] with length len`: the call does not
  return, the panic unwinds through its callers -/
  | indexOutOfRange (index : Int) (len : Nat)
  deriving DecidableEq

/-! ## rpmpack data -/

/-- The fields of `rpmpack.RPMMetaData` used by roci; `ρ` is `rpmpack.Relation`.
The defaults are Go's zero values, so `{}` is `rpmpack.RPMMetaData{}`. -/
structure RPMMetaData (ρ : Type) where
  Name : GoString := []
  Summary : GoString := []
  Description : GoString := []
  Version : GoString := []
  Release : GoString := []
  OS : GoString := []
  Vendor : GoString := []
  URL : GoString := []
  Packager : GoString := []
  Group : GoString := []
  Licence : GoString := []
  Compressor : GoString := []
  Epoch : Nat := 0
  BuildTime : Int := 0
  Provides : List ρ := []
  Obsoletes : List ρ := []
  Suggests : List ρ := []
  Recommends : List ρ := []
  Requires : List ρ := []
  Conflicts : List ρ := []
  deriving DecidableEq

/-- The external functions used by `ParseRpmdepsOutput` and
`AddRpmDependenciesFromConfig`. -/
structure External (ρ ε : Type) where
  /-- `rpmpack.NewRelation` -/
  NewRelation : GoString → Except ε ρ
  /-- `strconv.IsPrint` on the runes above U+00FF, a table of the Unicode standard -/
  isPrint : Nat → Bool
  /-- the method `Error()` of a library error -/
  Error : ε → GoString

/-! ## pkg/rpmdeps.go -/

/-- The six relation categories. -/
inductive Category
  | requires
  | recommends
  | provides
  | conflicts
  | obsoletes
  | suggests
  deriving DecidableEq

/-- The local variable `deps` of `ParseRpmdepsOutput`: six maps from the expression
text to the relation parsed from it.  A map is the list of its entries in insertion
order; its keys are distinct. -/
structure Deps (ρ : Type) where
  requires : List (GoString × ρ) := []
  recommends : List (GoString × ρ) := []
  provides : List (GoString × ρ) := []
  conflicts : List (GoString × ρ) := []
  obsoletes : List (GoString × ρ) := []
  suggests : List (GoString × ρ) := []

/-- The map of a category. -/
def Deps.get {ρ : Type} (deps : Deps ρ) : Category → List (GoString × ρ)
  | .requires => deps.requires
  | .recommends => deps.recommends
  | .provides => deps.provides
  | .conflicts => deps.conflicts
  | .obsoletes => deps.obsoletes
  | .suggests => deps.suggests

/-- Replace the map of a category. -/
def Deps.set {ρ : Type} (deps : Deps ρ) (c : Category) (m : List (GoString × ρ)) : Deps ρ :=
  match c with
  | .requires => { deps with requires := m }
  | .recommends => { deps with recommends := m }
  | .provides => { deps with provides := m }
  | .conflicts => { deps with conflicts := m }
  | .obsoletes => { deps with obsoletes := m }
  | .suggests => { deps with suggests := m }

/-- The `switch depType` of `ParseRpmdepsOutput`: the map selected by a type marker,
`none` where the switch says `continue` (`'S'`, `'e'`, `'o'` and the default). -/
def targetMap (depType : Nat) : Option Category :=
  if depType = 82 then some .requires          -- 'R'
  else if depType = 114 then some .recommends  -- 'r'
  else if depType = 80 then some .provides     -- 'P'
  else if depType = 67 then some .conflicts    -- 'C'
  else if depType = 79 then some .obsoletes    -- 'O'
  else if depType = 115 then some .suggests    -- 's'
  else if depType = 83 ∨ depType = 101 ∨ depType = 111 then none  -- 'S', 'e', 'o'
  else none

/-- The text of `fmt.Errorf("invalid dependency %q: %w", depString, err)`. -/
def invalidDependency {ρ ε : Type} (x : External ρ ε) (depString : GoString) (err : ε) :
    GoError ε :=
  .wrapError
    (ascii "invalid dependency " ++ Quote x.isPrint depString ++ ascii ": " ++ x.Error err) err

/-- One iteration of the loop of `ParseRpmdepsOutput` over the lines. -/
def parseLine {ρ ε : Type} (x : External ρ ε) (deps : Deps ρ) (line : GoString) :
    Except (GoError ε) (Deps ρ) :=
  match TrimSpace line with
  | [] => .ok deps
  | depType :: rest =>
    if IsDigit depType then .ok deps
    else
      let depString := TrimSpace rest
      match targetMap depType with
      | none => .ok deps
      | some c =>
        if ((deps.get c).lookup depString).isSome then .ok deps
        else match x.NewRelation depString with
          | .error err => .error (invalidDependency x depString err)
          | .ok r => .ok (deps.set c (deps.get c ++ [(depString, r)]))

/-- The loop of `ParseRpmdepsOutput`: the lines in order, stopping at the first error. -/
def parseLines {ρ ε : Type} (x : External ρ ε) : Deps ρ → List GoString →
    Except (GoError ε) (Deps ρ)
  | deps, [] => .ok deps
  | deps, line :: rest =>
    match parseLine x deps line with
    | .error err => .error err
    | .ok deps' => parseLines x deps' rest

/-- The values of a map in the increasing order of their keys; `nil` for an empty map. -/
def mapValues {ρ : Type} (ord : RangeOrder) (deps : List (GoString × ρ)) : List ρ :=
  if deps.length = 0 then []
  else
    let keys := SortStrings (ord.iter (deps.map Prod.fst))
    keys.filterMap (fun k => deps.lookup k)

/-- `ParseRpmdepsOutput` of pkg/rpmdeps.go.  `ord i` is the order of the `range`
loop of the i-th call of `mapValues`. -/
def ParseRpmdepsOutput {ρ ε : Type} (x : External ρ ε) (ord : Nat → RangeOrder)
    (output : GoString) : RPMMetaData ρ × Option (GoError ε) :=
  match parseLines x {} (SplitSeq output 10) with
  | .error err => ({}, some err)
  | .ok deps =>
    ({ Requires := mapValues (ord 0) deps.requires
       Recommends := mapValues (ord 1) deps.recommends
       Provides := mapValues (ord 2) deps.provides
       Conflicts := mapValues (ord 3) deps.conflicts
       Obsoletes := mapValues (ord 4) deps.obsoletes
       Suggests := mapValues (ord 5) deps.suggests }, none)

/-! ## Go standard library: `strconv.ParseInt` in base 10 -/

/-- The digit loop of `strconv.ParseUint` in base 10 for a bit size below 64: a byte
that is no decimal digit is a syntax error, a value above `maxVal` a range error,
whichever comes first. -/
def parseUintLoop (maxVal : Nat) : GoString → Nat → Except NumErr Nat
  | [], n => .ok n
  | c :: s, n =>
    if 48 ≤ c ∧ c ≤ 57 then
      let n1 := n * 10 + (c - 48)
      if n1 > maxVal then .error .ErrRange else parseUintLoop maxVal s n1
    else .error .ErrSyntax

/-- Go `strconv.ParseUint(s, 10, bitSize)`, the cause of the error only. -/
def ParseUint (s : GoString) (bitSize : Nat) : Except NumErr Nat :=
  if s = [] then .error .ErrSyntax else parseUintLoop (2 ^ bitSize - 1) s 0

/-- Go `strconv.ParseInt(s, 10, bitSize)`: an optional sign `+` or `-`, then decimal
digits, the value in the range of a signed integer of `bitSize` bits. -/
def ParseInt (s : GoString) (bitSize : Nat) : Except NumError Int :=
  let fail (cause : NumErr) : Except NumError Int :=
    .error { Func := ascii "ParseInt", Num := s, Err := cause }
  match s with
  | [] => fail .ErrSyntax
  | b :: t =>
    let neg := b == 45                                   -- '-'
    let digits := if b == 43 || b == 45 then t else s    -- '+' or '-' picked off
    match ParseUint digits bitSize with
    | .error .ErrSyntax => fail .ErrSyntax
    | .error .ErrRange => fail .ErrRange
    | .ok un =>
      let cutoff := 2 ^ (bitSize - 1)
      if !neg && un ≥ cutoff then fail .ErrRange
      else if neg && un > cutoff then fail .ErrRange
      else .ok (if neg then -(un : Int) else (un : Int))

/-- Go conversion `uint32(i)` of a signed integer: the value modulo 2^32. -/
def uint32 (i : Int) : Nat := (i % 2 ^ 32).toNat

/-- Go conversion `uint(i)` of a signed integer on a 64-bit platform. -/
def uint (i : Int) : Nat := (i % 2 ^ 64).toNat

/-! ## pkg/config.go -/

/-- The fields of `roci.RpmPackage` (with the embedded `RpmPreamble`) that bin/roci.go
reads, and the three dependency lists it does not read.  `Epoch` is a Go `int`. -/
structure RpmPackage where
  Name : GoString := []
  Version : GoString := []
  Release : GoString := []
  Epoch : Int := 0
  License : GoString := []
  Group : GoString := []
  Summary : GoString := []
  URL : GoString := []
  Vendor : GoString := []
  Packager : GoString := []
  RequiresPre : List GoString := []
  RequiresPost : List GoString := []
  RequiresPreUn : List GoString := []
  RequiresPostUn : List GoString := []
  RequiresPreTrans : List GoString := []
  RequiresPostTrans : List GoString := []
  RequiresVerify : List GoString := []
  RequiresInterp : List GoString := []
  RequiresMeta : List GoString := []
  Requires : List GoString := []
  Provides : List GoString := []
  Conflicts : List GoString := []
  Obsoletes : List GoString := []
  Recommends : List GoString := []
  Suggests : List GoString := []
  Supplements : List GoString := []
  Enhances : List GoString := []
  OrderWithRequires : List GoString := []
  Description : GoString := []

/-! ## bin/roci.go: external objects -/

/-- The fields of `types.ImageInspectInfo` read by roci: the label map, as its lookup
function, and the creation time (`nil` or a time, in seconds). -/
structure ImageInspectInfo where
  Labels : GoString → Option GoString
  Created : Option Int

/-- Go `tar.Header`, the fields read by roci.  `ModTime` is `hdr.ModTime.Unix()`. -/
structure TarHeader where
  Typeflag : Nat
  Name : GoString
  Mode : Int
  Uname : GoString
  Gname : GoString
  ModTime : Int

/-- The error returned by `tarRdr.Read(b)`. -/
inductive ReadErr (ε : Type)
  | nil
  | EOF
  | other (err : ε)

/-- One record of an archive: the header returned by `tarRdr.Next()`, and what
`tarRdr.Read(b)` does for a buffer `b` of `hdr.Size` bytes: the buffer after the call
and the error returned. -/
structure TarRecord (ε : Type) where
  hdr : TarHeader
  Read : GoString × ReadErr ε

/-- An archive as `tar.Reader` delivers it: the records in order, after which `Next`
returns `io.EOF` (`none`) or an error. -/
structure TarStream (ε : Type) where
  records : List (TarRecord ε)
  final : Option ε

/-- A blob returned by `GetBlob`: what `compression.AutoDecompress` and `tar.NewReader`
make of it. -/
structure Blob (ε : Type) where
  AutoDecompress : Except ε (TarStream ε)

/-- A `types.BlobInfo`, identified by its digest. -/
abbrev BlobInfo := GoString

/-- A `types.ImageSource`. -/
structure ImageSource (ε : Type) where
  GetBlob : BlobInfo → Except ε (Blob ε)

/-- A `types.Image`: the results of the methods roci calls on it. -/
structure Image (ε : Type) where
  Inspect : Except ε ImageInspectInfo
  LayerInfosForCopy : Except ε (List BlobInfo)
  NewImageSource : Except ε (ImageSource ε)

/-- A `buildah.Builder`: `Run` returns what the command wrote to standard output. -/
structure Builder (ε : Type) where
  Run : List GoString → Except ε GoString

/-- The constant `rpmpack.GenericFile`, the only file type roci uses. -/
inductive FileType
  | GenericFile
  deriving DecidableEq

/-- Go `rpmpack.RPMFile`, the fields set by roci. -/
structure RPMFile where
  Name : GoString
  Mode : Nat
  Owner : GoString
  Group : GoString
  MTime : Nat
  Body : Option GoString
  Type_ : FileType
  deriving DecidableEq

/-- Go `rpmpack.RPM`: the embedded `RPMMetaData` and the private state `φ` of the
library, which `AddFile` updates. -/
structure RPM (ρ φ : Type) extends RPMMetaData ρ where
  files : φ

/-- The external functions used by `bin/roci.go`, and the orders of the `range` loops
of the call of `ParseRpmdepsOutput`. -/
structure BuildEnv (ρ ε φ : Type) extends External ρ ε where
  /-- `b.ImageFromId`, which only calls the image store -/
  ImageFromId : GoString → Except ε (Image ε)
  /-- `rpmpack.NewRPM` -/
  NewRPM : RPMMetaData ρ → Except ε (RPM ρ φ)
  /-- `rpm.AddFile`, acting on the private state -/
  AddFile : φ → RPMFile → φ
  /-- `filepath.Abs(filepath.Join("/", name))` -/
  Abs : GoString → Except ε GoString
  /-- `buildah.NewBuilder` for the options `{FromImage: imgId}` -/
  NewBuilder : GoString → Except ε (Builder ε)
  ord : Nat → RangeOrder

/-! ## bin/roci.go -/

/-- The closure `strToRelations` of `AddRpmDependenciesFromConfig`: the relations of the
expressions in order, or the error of the first expression that does not parse. -/
def strToRelations {ρ ε : Type} (x : External ρ ε) : List GoString → Except ε (List ρ)
  | [] => .ok []
  | d :: deps =>
    match x.NewRelation d with
    | .error err => .error err
    | .ok r =>
      match strToRelations x deps with
      | .error err => .error err
      | .ok rels => .ok (r :: rels)

/-- `AddRpmDependenciesFromConfig` of bin/roci.go. -/
def AddRpmDependenciesFromConfig {ρ ε : Type} (x : External ρ ε) (m : RPMMetaData ρ)
    (rpmPkg : RpmPackage) : RPMMetaData ρ × Option (GoError ε) :=
  match strToRelations x rpmPkg.Provides with
  | .error err => ({}, some (.ext err))
  | .ok provides =>
    let allRequires : List GoString := []
    let allRequires := allRequires ++ rpmPkg.Requires
    let allRequires := allRequires ++ rpmPkg.RequiresPre
    let allRequires := allRequires ++ rpmPkg.RequiresPost
    let allRequires := allRequires ++ rpmPkg.RequiresPreUn
    let allRequires := allRequires ++ rpmPkg.RequiresPostUn
    let allRequires := allRequires ++ rpmPkg.RequiresPreTrans
    let allRequires := allRequires ++ rpmPkg.RequiresPostTrans
    let allRequires := allRequires ++ rpmPkg.RequiresVerify
    let allRequires := allRequires ++ rpmPkg.RequiresInterp
    let allRequires := allRequires ++ rpmPkg.RequiresMeta
    match strToRelations x allRequires with
    | .error err => ({}, some (.ext err))
    | .ok requires =>
      match strToRelations x rpmPkg.Obsoletes with
      | .error err => ({}, some (.ext err))
      | .ok obsoletes =>
        match strToRelations x rpmPkg.Conflicts with
        | .error err => ({}, some (.ext err))
        | .ok conflicts =>
          match strToRelations x rpmPkg.Recommends with
          | .error err => ({}, some (.ext err))
          | .ok recommends =>
            match strToRelations x rpmPkg.Suggests with
            | .error err => ({}, some (.ext err))
            | .ok suggests =>
              ({ m with
                  Provides := m.Provides ++ provides
                  Requires := m.Requires ++ requires
                  Obsoletes := m.Obsoletes ++ obsoletes
                  Conflicts := m.Conflicts ++ conflicts
                  Recommends := m.Recommends ++ recommends
                  Suggests := m.Suggests ++ suggests }, none)

/-- `AddRpmMetadataFromImageLabels` of bin/roci.go. -/
def AddRpmMetadataFromImageLabels {ρ ε : Type} (m : RPMMetaData ρ) (img : Image ε) :
    RPMMetaData ρ × Option (GoError ε) :=
  match img.Inspect with
  | .error err => ({}, some (.ext err))
  | .ok inspect =>
    let m := match inspect.Labels (ascii "org.opencontainers.image.version") with
      | some ver => { m with Version := ver }
      | none => m
    let m := match inspect.Labels (ascii "org.opencontainers.image.url") with
      | some url => { m with URL := url }
      | none => m
    let m := match inspect.Labels (ascii "org.opencontainers.image.title") with
      | some title => { m with Summary := title }
      | none => m
    let m := match inspect.Labels (ascii "org.opencontainers.image.description") with
      | some description => { m with Description := description }
      | none => m
    let m := match inspect.Labels (ascii "org.opencontainers.image.licenses") with
      | some licenses => { m with Licence := licenses }
      | none => m
    let m := match inspect.Labels (ascii "org.rpm.name") with
      | some name => { m with Name := name }
      | none => m
    let m := match inspect.Labels (ascii "org.rpm.release") with
      | some release => { m with Release := release }
      | none => m
    let withCreated (m : RPMMetaData ρ) : RPMMetaData ρ :=
      match inspect.Created with
      | some created => { m with BuildTime := created }
      | none => m
    match inspect.Labels (ascii "org.rpm.epoch") with
    | some epoch =>
      match ParseInt epoch 32 with
      | .error err => ({}, some (.num err))
      | .ok i => (withCreated { m with Epoch := uint32 i }, none)
    | none => (withCreated m, none)

/-- The type flags of `archive/tar` named in `WalkTopLayerTree`. -/
def TypeReg : Nat := 48
def TypeLink : Nat := 49
def TypeSymlink : Nat := 50
def TypeChar : Nat := 51
def TypeBlock : Nat := 52
def TypeDir : Nat := 53
def TypeFifo : Nat := 54

/-- The loop of `WalkTopLayerTree` over the records of the archive.  `σ` is the state
the callback acts on. -/
def walkRecords {ρ ε φ σ : Type} (env : BuildEnv ρ ε φ)
    (callback : σ → GoString → TarHeader → Option GoString → σ × Option (GoError ε)) :
    σ → List (TarRecord ε) → Option ε → σ × Option (GoError ε)
  | s, [], none => (s, none)
  | s, [], some err => (s, some (.ext err))
  | s, record :: rest, final =>
    match env.Abs record.hdr.Name with
    | .error err => (s, some (.ext err))
    | .ok path =>
      if record.hdr.Typeflag =
          (TypeLink ||| TypeSymlink ||| TypeChar ||| TypeBlock ||| TypeDir ||| TypeFifo) then
        match callback s path record.hdr none with
        | (s', some err) => (s', some err)
        | (s', none) => walkRecords env callback s' rest final
      else if record.hdr.Typeflag = TypeReg then
        match record.Read with
        | (_, .other err) => (s, some (.ext err))
        | (_, .nil) => (s, none)
        | (b, .EOF) =>
          match callback s path record.hdr (some b) with
          | (s', some err) => (s', some err)
          | (s', none) => walkRecords env callback s' rest final
      else walkRecords env callback s rest final

/-- `Build.WalkTopLayerTree` of bin/roci.go. -/
def WalkTopLayerTree {ρ ε φ σ : Type} (env : BuildEnv ρ ε φ) (img : Image ε)
    (callback : σ → GoString → TarHeader → Option GoString → σ × Option (GoError ε))
    (s : σ) : σ × Option (GoError ε) :=
  match img.LayerInfosForCopy with
  | .error err => (s, some (.ext err))
  | .ok blobInfo =>
    match img.NewImageSource with
    | .error err => (s, some (.ext err))
    | .ok src =>
      match blobInfo[blobInfo.length - 1]? with
      | none => (s, some (.indexOutOfRange ((blobInfo.length : Int) - 1) blobInfo.length))
      | some topLayerBlob =>
        match src.GetBlob topLayerBlob with
        | .error err => (s, some (.ext err))
        | .ok blob =>
          match blob.AutoDecompress with
          | .error err => (s, some (.ext err))
          | .ok decompressedStream =>
            walkRecords env callback s decompressedStream.records decompressedStream.final

/-- `Build.AutoReqProv` of bin/roci.go. -/
def AutoReqProv {ρ ε φ : Type} (env : BuildEnv ρ ε φ) (imgId : GoString)
    (filelist : List GoString) : RPMMetaData ρ × Option (GoError ε) :=
  match env.NewBuilder imgId with
  | .error err => ({}, some (.ext err))
  | .ok builder =>
    let cmd := [ascii "/usr/lib/rpm/rpmdeps", ascii "--alldeps"] ++ filelist
    match builder.Run cmd with
    | .error err => ({}, some (.ext err))
    | .ok buff => ParseRpmdepsOutput env.toExternal env.ord buff

/-- The initial value of the variable `metaData` of `Build.RpmFromLayer`: the built-in
defaults and three fields of the configuration. -/
def defaultMetaData {ρ : Type} (rpmPkg : RpmPackage) : RPMMetaData ρ :=
  { OS := ascii "linux"
    Compressor := ascii "zstd"
    Group := rpmPkg.Group
    Packager := rpmPkg.Packager
    Vendor := rpmPkg.Vendor }

/-- The field-by-field assignments of `Build.RpmFromLayer` from the configuration to
`metaData`. -/
def mergeConfig {ρ : Type} (metaData : RPMMetaData ρ) (rpmPkg : RpmPackage) : RPMMetaData ρ :=
  let metaData := if rpmPkg.Name ≠ [] then { metaData with Name := rpmPkg.Name } else metaData
  let metaData :=
    if rpmPkg.Version ≠ [] then { metaData with Version := rpmPkg.Version } else metaData
  let metaData :=
    if rpmPkg.Release ≠ [] then { metaData with Release := rpmPkg.Release } else metaData
  let metaData :=
    if rpmPkg.Summary ≠ [] then { metaData with Summary := rpmPkg.Summary } else metaData
  let metaData :=
    if rpmPkg.Description ≠ [] then { metaData with Description := rpmPkg.Description }
    else metaData
  let metaData := if rpmPkg.URL ≠ [] then { metaData with URL := rpmPkg.URL } else metaData
  let metaData :=
    if rpmPkg.License ≠ [] then { metaData with Licence := rpmPkg.License } else metaData
  let metaData :=
    if rpmPkg.Epoch ≠ 0 then { metaData with Epoch := uint32 rpmPkg.Epoch } else metaData
  metaData

/-- The variable `metaData` of `Build.RpmFromLayer` when `AddRpmDependenciesFromConfig`
is called: the built-in defaults, then the image labels, then the configured fields. -/
def mergedMetaData {ρ ε : Type} (img : Image ε) (rpmPkg : RpmPackage) :
    Except (GoError ε) (RPMMetaData ρ) :=
  match AddRpmMetadataFromImageLabels (defaultMetaData rpmPkg) img with
  | (_, some err) => .error err
  | (metaData, none) => .ok (mergeConfig metaData rpmPkg)

/-- The callback that `Build.RpmFromLayer` passes to `WalkTopLayerTree`; its state is
the variable `filelist` and the private state of `rpm`. -/
def rpmFromLayerCallback {ρ ε φ : Type} (env : BuildEnv ρ ε φ) (s : List GoString × φ)
    (path : GoString) (hdr : TarHeader) (body : Option GoString) :
    (List GoString × φ) × Option (GoError ε) :=
  let filelist := s.1 ++ [path]
  let f : RPMFile :=
    { Name := path
      Mode := uint hdr.Mode
      Owner := hdr.Uname
      Group := hdr.Gname
      MTime := uint32 hdr.ModTime
      Body := body
      Type_ := .GenericFile }
  ((filelist, env.AddFile s.2 f), none)

/-- `Build.RpmFromLayer` of bin/roci.go. -/
def RpmFromLayer {ρ ε φ : Type} (env : BuildEnv ρ ε φ) (id : GoString)
    (rpmPkg : RpmPackage) : Except (GoError ε) (RPM ρ φ) :=
  match env.ImageFromId id with
  | .error err => .error (.ext err)
  | .ok img =>
    match mergedMetaData img rpmPkg with
    | .error err => .error err
    | .ok metaData =>
      match AddRpmDependenciesFromConfig env.toExternal metaData rpmPkg with
      | (_, some err) => .error err
      | (m, none) =>
        match env.NewRPM m with
        | .error err => .error (.ext err)
        | .ok rpm =>
          match WalkTopLayerTree env img (rpmFromLayerCallback env) ([], rpm.files) with
          | (_, some err) => .error err
          | ((filelist, files), none) =>
            match AutoReqProv env id filelist with
            | (_, some err) => .error err
            | (autoMetadata, none) =>
              .ok { rpm with
                    files := files
                    Provides := rpm.Provides ++ autoMetadata.Provides
                    Requires := rpm.Requires ++ autoMetadata.Requires
                    Recommends := rpm.Recommends ++ autoMetadata.Recommends
                    Obsoletes := rpm.Obsoletes ++ autoMetadata.Obsoletes
                    Suggests := rpm.Suggests ++ autoMetadata.Suggests
                    Conflicts := rpm.Conflicts ++ autoMetadata.Conflicts }

/-! ## Vocabulary of the statements about `ParseRpmdepsOutput` -/

/-- The type marker of a category: `'R'`, `'r'`, `'P'`, `'C'`, `'O'`, `'s'`. -/
def marker : Category → Nat
  | .requires => 82
  | .recommends => 114
  | .provides => 80
  | .conflicts => 67
  | .obsoletes => 79
  | .suggests => 115

/-- The relation list of a category in a metadata record. -/
def RPMMetaData.rels {ρ : Type} (md : RPMMetaData ρ) : Category → List ρ
  | .requires => md.Requires
  | .recommends => md.Recommends
  | .provides => md.Provides
  | .conflicts => md.Conflicts
  | .obsoletes => md.Obsoletes
  | .suggests => md.Suggests

/-- The expression submitted by a line for category `c`: the line trimmed starts with
the marker of `c`, and the expression is the remainder trimmed. -/
def lineExpr (c : Category) (line : GoString) : Option GoString :=
  match TrimSpace line with
  | [] => none
  | b :: rest => if b = marker c then some (TrimSpace rest) else none

/-- The expressions submitted for category `c` by the lines of an input, in order,
repetitions included. -/
def submitted (c : Category) (output : GoString) : List GoString :=
  (SplitSeq output 10).filterMap (lineExpr c)

/-- Whether the protocol ignores a line: the first byte of the trimmed line (the first
byte of its first non-white-space character) is a decimal digit, or is none of the six
markers `R`, `r`, `P`, `C`, `O`, `s`. -/
def ignoredLine (line : GoString) : Bool :=
  match TrimSpace line with
  | [] => false
  | b :: _ => IsDigit b || !([82, 114, 80, 67, 79, 115].contains b)

/-- Go `strings.Join(elems, sep)` for a one-byte separator. -/
def Join : List GoString → Nat → GoString
  | [], _ => []
  | [l], _ => l
  | l :: l' :: ls, sep => l ++ sep :: Join (l' :: ls) sep

/-- The input without its line number `i` (lines are counted from 0). -/
def deleteLine (output : GoString) (i : Nat) : GoString :=
  Join ((SplitSeq output 10).eraseIdx i) 10

/-- The keys of a map. -/
def keysOf {ρ : Type} (m : List (GoString × ρ)) : List GoString := m.map Prod.fst

/-- Every entry of the six maps holds the relation parsed from its key. -/
def Deps.Parsed {ρ ε : Type} (x : External ρ ε) (deps : Deps ρ) : Prop :=
  ∀ c, ∀ p ∈ deps.get c, x.NewRelation p.1 = .ok p.2

/-- The keys of each of the six maps are distinct. -/
def Deps.NodupKeys {ρ : Type} (deps : Deps ρ) : Prop :=
  ∀ c, (keysOf (deps.get c)).Nodup

/-! ## Vocabulary of the statements about the metadata functions -/

/-- The expressions a configuration declares for a category.  For requires these are
`Requires`, `Requires(pre)`, `(post)`, `(preun)`, `(postun)`, `(pretrans)`, `(posttrans)`,
`(verify)`, `(interp)` and `(meta)`, concatenated in this order. -/
def declared (rpmPkg : RpmPackage) : Category → List GoString
  | .requires =>
    rpmPkg.Requires ++ (rpmPkg.RequiresPre ++ (rpmPkg.RequiresPost ++ (rpmPkg.RequiresPreUn ++
      (rpmPkg.RequiresPostUn ++ (rpmPkg.RequiresPreTrans ++ (rpmPkg.RequiresPostTrans ++
        (rpmPkg.RequiresVerify ++ (rpmPkg.RequiresInterp ++ rpmPkg.RequiresMeta))))))))
  | .recommends => rpmPkg.Recommends
  | .provides => rpmPkg.Provides
  | .conflicts => rpmPkg.Conflicts
  | .obsoletes => rpmPkg.Obsoletes
  | .suggests => rpmPkg.Suggests

/-- The precedence of the merge for one text field: the configured value `C` when it is
not empty; otherwise the value of the image label when the label is present; otherwise
the empty string, the default of the field. -/
def mergePrecedence (C : GoString) (L : Option GoString) : GoString :=
  if C ≠ [] then C
  else match L with
    | some l => l
    | none => []

/-- The record `m` with the fields set from the labels and the creation time of an
image, where present, and with the given epoch. -/
def withLabels {ρ : Type} (m : RPMMetaData ρ) (inspect : ImageInspectInfo) (epoch : Nat) :
    RPMMetaData ρ :=
  { m with
    Version := (inspect.Labels (ascii "org.opencontainers.image.version")).getD m.Version
    URL := (inspect.Labels (ascii "org.opencontainers.image.url")).getD m.URL
    Summary := (inspect.Labels (ascii "org.opencontainers.image.title")).getD m.Summary
    Description :=
      (inspect.Labels (ascii "org.opencontainers.image.description")).getD m.Description
    Licence := (inspect.Labels (ascii "org.opencontainers.image.licenses")).getD m.Licence
    Name := (inspect.Labels (ascii "org.rpm.name")).getD m.Name
    Release := (inspect.Labels (ascii "org.rpm.release")).getD m.Release
    Epoch := epoch
    BuildTime := inspect.Created.getD m.BuildTime }

/-- Whether a string consists of printable ASCII characters other than the double
quote and the backslash: the strings that `%q` renders unchanged between its quotes. -/
def plainASCII (s : GoString) : Bool :=
  s.all fun b => 32 ≤ b && b ≤ 126 && b != 34 && b != 92

/-! ## Concrete inputs on which the functions are evaluated -/

/-- A relation as rpmpack holds it: name, comparison and version. -/
structure Relation where
  Name : GoString
  Sense : GoString
  Version : GoString
  deriving DecidableEq

/-- The bytes `<`, `=`, `>`. -/
def isSenseByte (b : Nat) : Bool := b == 60 || b == 61 || b == 62

/-- A stand-in for `rpmpack.NewRelation` on concrete inputs: name, comparison and
version are split at the comparison bytes, and a comparison other than `<`, `>`, `=`,
`<=`, `>=` is rejected.  It instantiates theorems that hold for every `NewRelation`. -/
def sampleNewRelation (e : GoString) : Except GoString Relation :=
  let name := e.takeWhile (fun b => !isSenseByte b && !asciiSpace b)
  let r := (e.dropWhile (fun b => !isSenseByte b && !asciiSpace b)).dropWhile asciiSpace
  let sense := r.takeWhile isSenseByte
  let version := (r.dropWhile isSenseByte).dropWhile asciiSpace
  if sense ∈ [[], ascii "<", ascii ">", ascii "=", ascii "<=", ascii ">="] then
    .ok ⟨name, sense, version⟩
  else .error (ascii "unknown sense value: " ++ sense)

/-- A stand-in for the external functions: `sampleNewRelation`, a table in which every
rune above U+00FF is printable, and errors that are their own text. -/
def sampleExternal : External Relation GoString where
  NewRelation := sampleNewRelation
  isPrint := fun _ => true
  Error := fun err => err

/-- Every `range` loop visits the keys in insertion order. -/
def insertionOrder : Nat → RangeOrder := fun _ => ⟨fun keys => keys, fun keys => List.Perm.refl keys⟩

/-- Every `range` loop visits the keys in reverse insertion order. -/
def reverseOrder : Nat → RangeOrder := fun _ => ⟨List.reverse, List.reverse_perm⟩

/-- The input of `TestParseRpmdepsOutput_AllTypes`. -/
def allTypesOutput : GoString :=
  ascii "0 /usr/lib64/test.so\n  R required.so()(64bit)\n  r recommended.so()(64bit)\n  P provided.so()(64bit)\n  C conflicted.so()(64bit)\n  O itself < 1.0\n  s some-symbol"

/-- The input of `TestParseRpmdepsOutput`. -/
def twoFilesOutput : GoString :=
  ascii "  0 /usr/lib64/libabrt.so.0.1.0\n    R libgobject-2.0.so.0()(64bit)\n    R libc.so.6(GLIBC_2.2.5)(64bit)\n    R libc.so.6(GLIBC_2.3.4)(64bit)\n    R libc.so.6(GLIBC_2.33)(64bit)\n    R libc.so.6(GLIBC_2.3)(64bit)\n    R libc.so.6(GLIBC_2.4)(64bit)\n    R libc.so.6(GLIBC_2.38)(64bit)\n    R libc.so.6(GLIBC_ABI_DT_RELR)(64bit)\n    R libgcc_s.so.1(GCC_3.3.1)(64bit)\n    P libabrt.so.0(LIBRABRT_2.14.5)(64bit)\n    R libreport.so.2(LIBREPORT_2.13.1)(64bit)\n    P libabrt.so.0()(64bit)\n    R libgcc_s.so.1(GCC_3.0)(64bit)\n    R libreport.so.2()(64bit)\n    R libglib-2.0.so.0()(64bit)\n    R libsatyr.so.4()(64bit)\n    R libjson-c.so.5()(64bit)\n    R libgcc_s.so.1()(64bit)\n    R libc.so.6()(64bit)\n    R rtld(GNU_HASH)\n    R libgio-2.0.so.0()(64bit)\n    S libsupplement.so()(64bit)\n    e libenhance.so()(64bit)\n  1 /usr/lib64/libacl.so.1.1.2302\n    P libacl.so.1(ACL_1.2)(64bit)\n    R libc.so.6(GLIBC_2.38)(64bit)\n    R libc.so.6(GLIBC_ABI_DT_RELR)(64bit)\n    P libacl.so.1()(64bit)\n    R libc.so.6(GLIBC_2.4)(64bit)\n    P libacl.so.1(ACL_1.2)(64bit)\n    P libacl.so.1(ACL_1.1)(64bit)\n    P libacl.so.1(ACL_1.0)(64bit)\n    R libc.so.6(GLIBC_2.33)(64bit)\n    R libc.so.6(GLIBC_2.3.4)(64bit)\n    R rtld(GNU_HASH)\n    R libc.so.6()(64bit)\n    R libattr.so.1()(64bit)\n    R libc.so.6(GLIBC_2.2.5)(64bit)\n    R libc.so.6(GLIBC_2.3)(64bit)\n    o liborder.so()(64bit)"

/-- A stand-in for `rpmpack.NewRPM`: the metadata as given, with the relation by which
the package provides itself appended to `Provides`, and no files. -/
def sampleNewRPM (m : RPMMetaData Relation) : Except GoString (RPM Relation (List RPMFile)) :=
  .ok { m with
        Provides := m.Provides ++ [⟨m.Name, ascii "=", m.Version⟩]
        files := [] }

/-- An archive with a directory entry, a regular file read to its end, and a
continuation entry (type flag `'7'`). -/
def sampleStream : TarStream GoString where
  records :=
    [ { hdr := { Typeflag := TypeDir, Name := ascii "usr/", Mode := 493, Uname := ascii "root",
                 Gname := ascii "root", ModTime := 1700000000 },
        Read := ([], .EOF) },
      { hdr := { Typeflag := TypeReg, Name := ascii "usr/lib.so", Mode := 420,
                 Uname := ascii "root", Gname := ascii "root", ModTime := 1700000000 },
        Read := ([127, 69, 76, 70], .EOF) },
      { hdr := { Typeflag := 55, Name := ascii "usr/more", Mode := 420, Uname := ascii "root",
                 Gname := ascii "root", ModTime := 1700000000 },
        Read := ([], .EOF) } ]
  final := none

/-- An image with the given labels, no creation time, and two layers of which the top
one holds `sampleStream`. -/
def sampleImage (labels : List (GoString × GoString)) : Image GoString where
  Inspect := .ok { Labels := fun key => labels.lookup key, Created := none }
  LayerInfosForCopy := .ok [ascii "sha256:base", ascii "sha256:top"]
  NewImageSource := .ok
    { GetBlob := fun info =>
        if info = ascii "sha256:top" then .ok { AutoDecompress := .ok sampleStream }
        else .error (ascii "unknown blob") }

/-- The labels of the image `sampleImage` is evaluated with. -/
def sampleLabels : List (GoString × GoString) :=
  [(ascii "org.opencontainers.image.version", ascii "1.2"),
   (ascii "org.opencontainers.image.title", ascii "from the label"),
   (ascii "org.rpm.name", ascii "labelled"),
   (ascii "org.rpm.epoch", ascii "3")]

/-- A stand-in for the environment of a build: one image `img`, whose scanner run
prints `allTypesOutput`. -/
def sampleEnv : BuildEnv Relation GoString (List RPMFile) where
  toExternal := sampleExternal
  ImageFromId := fun id =>
    if id = ascii "img" then .ok (sampleImage sampleLabels) else .error (ascii "unknown image")
  NewRPM := sampleNewRPM
  AddFile := fun files f => files ++ [f]
  Abs := fun name => .ok (47 :: name)
  NewBuilder := fun _ => .ok { Run := fun _ => .ok allTypesOutput }
  ord := insertionOrder

/-- A configuration with a name, a summary and declared relations. -/
def samplePackage : RpmPackage where
  Name := ascii "configured"
  Summary := ascii "from the configuration"
  Requires := [ascii "bash", ascii "glibc >= 2.38"]
  RequiresPre := [ascii "shadow"]
  RequiresMeta := [ascii "filesystem"]
  Provides := [ascii "tool = 1.2"]
  Supplements := [ascii "not <> read"]

/-- A callback that records its calls: the path and the content it is given. -/
def recordCall (calls : List (GoString × Option GoString)) (path : GoString) (_hdr : TarHeader)
    (contents : Option GoString) :
    List (GoString × Option GoString) × Option (GoError GoString) :=
  (calls ++ [(path, contents)], none)

/-- A header of the given type flag and name. -/
def sampleHeader (typeflag : Nat) (name : GoString) : TarHeader :=
  { Typeflag := typeflag, Name := name, Mode := 420, Uname := ascii "root",
    Gname := ascii "root", ModTime := 1700000000 }

/-- An archive with one regular file of the given name, read to its end. -/
def fileStream (name : GoString) : TarStream GoString where
  records := [{ hdr := sampleHeader TypeReg name, Read := ([1, 2, 3], .EOF) }]
  final := none

/-- An image with the given layers; the blob of a layer is an archive with one regular
file named after the layer. -/
def layeredImage (layers : List BlobInfo) : Image GoString where
  Inspect := .ok { Labels := fun _ => none, Created := none }
  LayerInfosForCopy := .ok layers
  NewImageSource := .ok { GetBlob := fun info => .ok { AutoDecompress := .ok (fileStream info) } }

/-- An archive with a directory, a symlink, a hardlink, a character device, a block
device, a fifo and a regular file read to its end. -/
def kindsStream : TarStream GoString where
  records :=
    [ { hdr := sampleHeader TypeDir (ascii "dir"), Read := ([], .EOF) },
      { hdr := sampleHeader TypeSymlink (ascii "symlink"), Read := ([], .EOF) },
      { hdr := sampleHeader TypeLink (ascii "hardlink"), Read := ([], .EOF) },
      { hdr := sampleHeader TypeChar (ascii "char"), Read := ([], .EOF) },
      { hdr := sampleHeader TypeBlock (ascii "block"), Read := ([], .EOF) },
      { hdr := sampleHeader TypeFifo (ascii "fifo"), Read := ([], .EOF) },
      { hdr := sampleHeader TypeReg (ascii "file"), Read := ([1, 2, 3], .EOF) } ]
  final := none

/-- An image with one layer that holds `kindsStream`. -/
def kindsImage : Image GoString where
  Inspect := .ok { Labels := fun _ => none, Created := none }
  LayerInfosForCopy := .ok [ascii "sha256:top"]
  NewImageSource := .ok { GetBlob := fun _ => .ok { AutoDecompress := .ok kindsStream } }

/-- The lines of `allTypesOutput` in another order and in three file groups, three of
them repeated. -/
def allTypesShuffled : GoString :=
  ascii "0 /usr/lib64/a.so\n  s some-symbol\n  O itself < 1.0\n  s some-symbol\n1 /usr/lib64/b.so\n  P provided.so()(64bit)\n  R required.so()(64bit)\n2 /usr/lib64/c.so\n  C conflicted.so()(64bit)\n  R required.so()(64bit)\n  r recommended.so()(64bit)\n  P   provided.so()(64bit)  "

/-- An input whose only dependency line has an expression with a double quote and a
comparison that `sampleNewRelation` rejects: `R a"b <> 1`. -/
def quotedOutput : GoString := ascii "R a" ++ 34 :: ascii "b <> 1"

/-- The expression of the dependency line of `quotedOutput`: `a"b <> 1`. -/
def quotedExpr : GoString := 97 :: 34 :: ascii "b <> 1"

/-- The message of the error returned for `quotedOutput`: the expression between double
quotes, its double quote escaped by a backslash. -/
def quotedMessage : GoString :=
  ascii "invalid dependency " ++ 34 :: 97 :: 92 :: 34 :: ascii "b <> 1" ++
    34 :: ascii ": unknown sense value: <>"

/-! ## `strings.TrimSpace`: the fuel suffices -/

theorem leadingSpace_le (s : GoString) : leadingSpace s ≤ s.length := by
  match s with
  | [] => simp [leadingSpace]
  | [b] => simp only [leadingSpace]; split_ifs <;> simp
  | [b, c] => simp only [leadingSpace]; split_ifs <;> simp
  | b :: c :: d :: r => simp only [leadingSpace]; split_ifs <;> simp

theorem trailingSpace_le (s : GoString) : trailingSpace s ≤ s.length := by
  match s with
  | [] => simp [trailingSpace]
  | [b] => simp only [trailingSpace]; split_ifs <;> simp
  | [b, c] => simp only [trailingSpace]; split_ifs <;> simp
  | b :: c :: d :: r => simp only [trailingSpace]; split_ifs <;> simp

theorem trimLeftAux_leadingSpace :
    ∀ (fuel : Nat) (s : GoString), s.length ≤ fuel → leadingSpace (trimLeftAux fuel s) = 0
  | 0, s, h => by
    have : s = [] := List.length_eq_zero.mp (Nat.le_zero.mp h)
    subst this
    rfl
  | fuel + 1, s, h => by
    unfold trimLeftAux
    split_ifs with h0
    · exact h0
    · apply trimLeftAux_leadingSpace fuel
      have := leadingSpace_le s
      rw [List.length_drop]
      omega

theorem trimRightAux_trailingSpace :
    ∀ (fuel : Nat) (rev : GoString), rev.length ≤ fuel →
      trailingSpace (trimRightAux fuel rev) = 0
  | 0, s, h => by
    have : s = [] := List.length_eq_zero.mp (Nat.le_zero.mp h)
    subst this
    rfl
  | fuel + 1, s, h => by
    unfold trimRightAux
    split_ifs with h0
    · exact h0
    · apply trimRightAux_trailingSpace fuel
      have := trailingSpace_le s
      rw [List.length_drop]
      omega

theorem trimRightAux_suffix : ∀ (fuel : Nat) (rev : GoString), trimRightAux fuel rev <:+ rev
  | 0, rev => List.suffix_refl rev
  | fuel + 1, rev => by
    unfold trimRightAux
    split_ifs
    · exact List.suffix_refl rev
    · exact (trimRightAux_suffix fuel _).trans (List.drop_suffix _ _)

theorem leadingSpace_of_prefix {r l : GoString} (h : r <+: l) (hl : leadingSpace l = 0) :
    leadingSpace r = 0 := by
  obtain ⟨t, rfl⟩ := h
  match r with
  | [] => rfl
  | [b] =>
    unfold leadingSpace at hl ⊢
    simp only [List.singleton_append] at hl
    by_cases hb : asciiSpace b = true
    · simp [hb] at hl
    · simp [hb]
  | [b, c] =>
    unfold leadingSpace at hl ⊢
    simp only [List.cons_append, List.nil_append] at hl
    by_cases hb : asciiSpace b = true
    · simp [hb] at hl
    · simp only [hb, Bool.false_eq_true, if_false] at hl ⊢
      by_cases hc : (b == 0xC2) = true
      · simp only [hc, if_true] at hl ⊢
        exact hl
      · simp [hc]
  | b :: c :: d :: r' =>
    unfold leadingSpace at hl ⊢
    simp only [List.cons_append] at hl
    exact hl

/-- The result of `TrimSpace` does not start with a white-space rune. -/
theorem TrimSpace_leadingSpace (s : GoString) : leadingSpace (TrimSpace s) = 0 := by
  unfold TrimSpace
  simp only
  refine leadingSpace_of_prefix ?_ (trimLeftAux_leadingSpace s.length s (Nat.le_refl _))
  have := trimRightAux_suffix (trimLeftAux s.length s).length (trimLeftAux s.length s).reverse
  have h := List.reverse_prefix.mpr this
  rwa [List.reverse_reverse] at h

/-- The result of `TrimSpace` does not end with a white-space rune. -/
theorem TrimSpace_trailingSpace (s : GoString) : trailingSpace (TrimSpace s).reverse = 0 := by
  unfold TrimSpace
  simp only [List.reverse_reverse]
  exact trimRightAux_trailingSpace _ _ (by simp)

/-! ## `strconv.Quote` -/

/-- A plain byte is written unchanged. -/
theorem appendEscapedRune_plain (table : Nat → Bool) (b : Nat) (bytes : GoString)
    (h : (32 ≤ b && b ≤ 126 && b != 34 && b != 92) = true) :
    appendEscapedRune table b bytes = bytes := by
  simp only [Bool.and_eq_true, decide_eq_true_eq, bne_iff_ne, ne_eq] at h
  obtain ⟨⟨⟨h1, h2⟩, h3⟩, h4⟩ := h
  have hp : IsPrint table b = true := by
    unfold IsPrint
    have : b ≤ 0xFF := by omega
    simp [this, h1, h2]
  unfold appendEscapedRune
  have hq : ¬ (b = 34 ∨ b = 92) := by omega
  simp only [hq, if_false, hp, if_true]

/-- The loop of `Quote` copies a string of plain bytes. -/
theorem quoteLoop_plain (table : Nat → Bool) :
    ∀ (fuel : Nat) (s : GoString), s.length ≤ fuel → plainASCII s = true →
      quoteLoop table fuel s = s
  | 0, s, hl, _ => by
    have : s = [] := List.length_eq_zero.mp (Nat.le_zero.mp hl)
    subst this
    rfl
  | fuel + 1, [], _, _ => rfl
  | fuel + 1, b :: s, hl, hp => by
    have hb : (32 ≤ b && b ≤ 126 && b != 34 && b != 92) = true := by
      simp only [plainASCII, List.all_cons, Bool.and_eq_true] at hp
      simpa only [Bool.and_eq_true] using hp.1
    have hs : plainASCII s = true := by
      simp only [plainASCII, List.all_cons, Bool.and_eq_true] at hp
      exact hp.2
    have hlt : ¬ b ≥ 0x80 := by
      simp only [Bool.and_eq_true, decide_eq_true_eq] at hb
      omega
    have hne : ¬ (True ∧ b = 0xFFFD) := by
      simp only [Bool.and_eq_true, decide_eq_true_eq] at hb
      omega
    have ih := quoteLoop_plain table fuel s (by simpa using hl) hs
    simp only [quoteLoop, hlt, if_false, hne, List.take_succ_cons, List.take_zero,
      List.drop_succ_cons, List.drop_zero, appendEscapedRune_plain table b [b] hb, ih,
      List.singleton_append, hne]

/-- `%q` renders a string of printable ASCII characters other than the double quote and
the backslash as the string itself between double quotes. -/
theorem Quote_plain (table : Nat → Bool) (s : GoString) (h : plainASCII s = true) :
    Quote table s = 34 :: s ++ [34] := by
  unfold Quote
  rw [quoteLoop_plain table s.length s (Nat.le_refl _) h]


theorem decodeContinuation_width (sz lo hi s0 : Nat) (t : GoString) :
    1 ≤ (decodeContinuation sz lo hi s0 t).2 := by
  rcases t with _ | ⟨s1, _ | ⟨s2, _ | ⟨s3, v⟩⟩⟩ <;>
  · simp only [decodeContinuation]
    split_ifs <;> simp

/-- A decoded rune is at least one byte wide. -/
theorem DecodeRuneInString_width (s0 : Nat) (t : GoString) :
    1 ≤ (DecodeRuneInString (s0 :: t)).2 := by
  simp only [DecodeRuneInString]
  split_ifs <;> first
    | exact Nat.le_refl 1
    | exact decodeContinuation_width _ _ _ s0 t

/-- The loop of `Quote` reaches the end of the string: any fuel from the length on gives
the same rendering. -/
theorem quoteLoop_fuel (table : Nat → Bool) :
    ∀ (n m : Nat) (s : GoString), s.length ≤ n → s.length ≤ m →
      quoteLoop table n s = quoteLoop table m s
  | 0, m, s, hn, _ => by
    have : s = [] := List.length_eq_zero.mp (Nat.le_zero.mp hn)
    subst this
    cases m <;> rfl
  | n + 1, 0, s, _, hm => by
    have : s = [] := List.length_eq_zero.mp (Nat.le_zero.mp hm)
    subst this
    rfl
  | n + 1, m + 1, [], _, _ => rfl
  | n + 1, m + 1, s0 :: t, hn, hm => by
    have hw : 1 ≤ (if s0 ≥ 0x80 then DecodeRuneInString (s0 :: t) else (s0, 1)).2 := by
      split_ifs
      · exact DecodeRuneInString_width s0 t
      · exact Nat.le_refl 1
    have hlen : ((s0 :: t).drop
        (if s0 ≥ 0x80 then DecodeRuneInString (s0 :: t) else (s0, 1)).2).length ≤ t.length := by
      rw [List.length_drop, List.length_cons]
      omega
    simp only [List.length_cons] at hn hm
    simp only [quoteLoop]
    rw [quoteLoop_fuel table n m _ (by omega) (by omega)]

/-! ## Properties of the string order and of `sort.Strings` -/

theorem strLess_irrefl (a : GoString) : strLess a a = false := by
  induction a with
  | nil => rfl
  | cons x s ih => simp [strLess, ih]

theorem strLess_asymm : ∀ a b : GoString, strLess a b = true → strLess b a = false
  | [], [] => by simp [strLess]
  | [], _ :: _ => by simp [strLess]
  | _ :: _, [] => by simp [strLess]
  | x :: s, y :: t => by
    intro h
    unfold strLess at h ⊢
    by_cases h1 : x < y
    · have h2 : ¬ y < x := by omega
      simp [h1, h2]
    · by_cases h2 : y < x
      · simp [h1, h2] at h
      · simp only [h1, h2, if_false] at h ⊢
        exact strLess_asymm s t h

theorem strLess_connected : ∀ a b : GoString, strLess a b = false → strLess b a = false → a = b
  | [], [] => by simp
  | [], _ :: _ => by simp [strLess]
  | _ :: _, [] => by simp [strLess]
  | x :: s, y :: t => by
    intro h h'
    unfold strLess at h h'
    by_cases h1 : x < y
    · simp [h1] at h
    · by_cases h2 : y < x
      · simp [h2] at h'
      · simp only [h1, h2, if_false] at h h'
        have : x = y := by omega
        rw [this, strLess_connected s t h h']

theorem strLess_trans : ∀ a b c : GoString, strLess a b = true → strLess b c = true →
    strLess a c = true
  | [], _, [] => by
    intro h h'
    cases ‹GoString› <;> simp [strLess] at h h'
  | [], _, _ :: _ => by simp [strLess]
  | _ :: _, [], _ => by simp [strLess]
  | _ :: _, _ :: _, [] => by simp [strLess]
  | x :: s, y :: t, z :: u => by
    intro h h'
    unfold strLess at h h' ⊢
    by_cases h1 : x < y
    · by_cases h2 : y < z
      · have : x < z := by omega
        simp [this]
      · by_cases h3 : z < y
        · simp [h2, h3] at h'
        · have : x < z := by omega
          simp [this]
    · by_cases h1' : y < x
      · simp [h1, h1'] at h
      · simp only [h1, h1', if_false] at h
        have hxy : x = y := by omega
        subst hxy
        by_cases h2 : x < z
        · simp [h2]
        · by_cases h3 : z < x
          · simp [h2, h3] at h'
          · simp only [h2, h3, if_false] at h' ⊢
            exact strLess_trans s t u h h'

instance strLE.isTotal : IsTotal GoString strLE where
  total a b := by
    unfold strLE
    cases h : strLess b a
    · exact Or.inl rfl
    · exact Or.inr (strLess_asymm b a h)

instance strLE.isAntisymm : IsAntisymm GoString strLE where
  antisymm a b h h' := strLess_connected a b h' h

instance strLE.isTrans : IsTrans GoString strLE where
  trans a b c h h' := by
    unfold strLE at *
    cases hca : strLess c a
    · rfl
    · -- c < a, and a ≤ b, so c < b, contradiction with b ≤ c
      exfalso
      cases hab : strLess a b
      · have := strLess_connected a b hab h
        subst this
        rw [hca] at h'
        exact Bool.noConfusion h'
      · have := strLess_trans c a b hca hab
        rw [this] at h'
        exact Bool.noConfusion h'

theorem SortStrings_perm (l : List GoString) : (SortStrings l).Perm l :=
  List.perm_insertionSort strLE l

theorem SortStrings_sorted (l : List GoString) : (SortStrings l).Sorted strLE :=
  List.sorted_insertionSort strLE l

theorem SortStrings_congr {l₁ l₂ : List GoString} (h : l₁.Perm l₂) :
    SortStrings l₁ = SortStrings l₂ :=
  List.eq_of_perm_of_sorted
    (((SortStrings_perm l₁).trans h).trans (SortStrings_perm l₂).symm)
    (SortStrings_sorted l₁) (SortStrings_sorted l₂)

theorem SortStrings_strict {l : List GoString} (h : l.Nodup) :
    (SortStrings l).Pairwise (fun a b => strLess a b = true) := by
  have hs := SortStrings_sorted l
  have hn : (SortStrings l).Nodup := (SortStrings_perm l).nodup_iff.mpr h
  unfold List.Sorted at hs
  unfold List.Nodup at hn
  refine (hs.and hn).imp ?_
  intro a b hab
  obtain ⟨hle, hne⟩ := hab
  cases hlt : strLess a b
  · exact absurd (strLess_connected a b hlt hle) hne
  · rfl

theorem nodup_of_pairwise_strLess {ks : List GoString}
    (h : ks.Pairwise (fun a b => strLess a b = true)) : ks.Nodup := by
  unfold List.Nodup
  refine h.imp ?_
  intro a b hab heq
  subst heq
  rw [strLess_irrefl] at hab
  exact Bool.noConfusion hab

/-! ## The loop of `ParseRpmdepsOutput` -/

variable {ρ ε : Type}

theorem targetMap_eq_some {b : Nat} {c : Category} : targetMap b = some c ↔ b = marker c := by
  unfold targetMap
  cases c <;> simp only [marker] <;> split_ifs <;> simp_all

theorem targetMap_of_isDigit {b : Nat} (h : IsDigit b = true) : targetMap b = none := by
  simp only [IsDigit, Bool.and_eq_true, decide_eq_true_eq] at h
  unfold targetMap
  split_ifs <;> first | rfl | omega

theorem Deps.get_set_self (deps : Deps ρ) (c : Category) (m : List (GoString × ρ)) :
    (deps.set c m).get c = m := by
  cases c <;> rfl

theorem Deps.get_set_of_ne (deps : Deps ρ) {c c' : Category} (m : List (GoString × ρ))
    (h : c' ≠ c) : (deps.set c m).get c' = deps.get c' := by
  cases c <;> cases c' <;> first | rfl | exact absurd rfl h

theorem lookup_isSome_iff (m : List (GoString × ρ)) (k : GoString) :
    (m.lookup k).isSome = true ↔ k ∈ keysOf m := by
  induction m with
  | nil => simp [keysOf]
  | cons p m ih =>
    obtain ⟨k', r⟩ := p
    by_cases h : k = k'
    · subst h
      simp [List.lookup, keysOf]
    · have h' : (k == k') = false := by simpa using h
      simp only [List.lookup, h', keysOf, List.map_cons, List.mem_cons, h, false_or]
      exact ih

theorem lookup_of_mem_keysOf {m : List (GoString × ρ)} {k : GoString} (h : k ∈ keysOf m) :
    ∃ r, m.lookup k = some r ∧ (k, r) ∈ m := by
  induction m with
  | nil => simp [keysOf] at h
  | cons p m ih =>
    obtain ⟨k', r⟩ := p
    by_cases hk : k = k'
    · subst hk
      exact ⟨r, by simp [List.lookup], by simp⟩
    · have h' : (k == k') = false := by simpa using hk
      have hm : k ∈ keysOf m := by
        simp only [keysOf, List.map_cons, List.mem_cons] at h
        rcases h with h | h
        · exact absurd h hk
        · exact h
      obtain ⟨r', h1, h2⟩ := ih hm
      exact ⟨r', by simp [List.lookup, h', h1], List.mem_cons_of_mem _ h2⟩

/-- The marker line classification used by the loop: category and expression. -/
theorem lineExpr_eq_some {c : Category} {line e : GoString} :
    lineExpr c line = some e ↔
      ∃ rest, TrimSpace line = marker c :: rest ∧ TrimSpace rest = e := by
  unfold lineExpr
  cases h : TrimSpace line with
  | nil => simp
  | cons b rest =>
    by_cases hb : b = marker c
    · subst hb; simp
    · simp only [hb, if_false]
      constructor
      · intro h; cases h
      · rintro ⟨rest', h1, _⟩
        simp only [List.cons.injEq] at h1
        exact absurd h1.1 hb

/-- What one iteration does, in terms of `lineExpr`. -/
theorem parseLine_of_lineExpr (x : External ρ ε) (deps : Deps ρ) {line e : GoString}
    {c : Category} (h : lineExpr c line = some e) :
    parseLine x deps line =
      if e ∈ keysOf (deps.get c) then .ok deps
      else match x.NewRelation e with
        | .error err => .error (invalidDependency x e err)
        | .ok r => .ok (deps.set c (deps.get c ++ [(e, r)])) := by
  obtain ⟨rest, h1, h2⟩ := lineExpr_eq_some.mp h
  have hd : IsDigit (marker c) = false := by cases c <;> rfl
  have ht : targetMap (marker c) = some c := targetMap_eq_some.mpr rfl
  unfold parseLine
  rw [h1]
  simp only [hd, ht, h2]
  by_cases hk : e ∈ keysOf (deps.get c)
  · simp [hk, (lookup_isSome_iff _ _).mpr hk]
  · have : ((deps.get c).lookup e).isSome = false := by
      rw [← Bool.not_eq_true, lookup_isSome_iff]; exact hk
    simp only [hk, this, if_false, Bool.false_eq_true]

theorem parseLine_of_no_lineExpr (x : External ρ ε) (deps : Deps ρ) {line : GoString}
    (h : ∀ c, lineExpr c line = none) : parseLine x deps line = .ok deps := by
  unfold parseLine
  cases ht : TrimSpace line with
  | nil => rfl
  | cons b rest =>
    simp only
    split_ifs
    · rfl
    · cases hm : targetMap b with
      | none => rfl
      | some c =>
        have := h c
        rw [targetMap_eq_some] at hm
        simp [lineExpr, ht, hm] at this

theorem marker_injective {c c' : Category} (h : marker c = marker c') : c = c' := by
  cases c <;> cases c' <;> first | rfl | exact absurd h (by decide)

theorem lineExpr_category {c c' : Category} {line e e' : GoString}
    (h : lineExpr c line = some e) (h' : lineExpr c' line = some e') : c = c' ∧ e = e' := by
  obtain ⟨rest, h1, h2⟩ := lineExpr_eq_some.mp h
  obtain ⟨rest', h1', h2'⟩ := lineExpr_eq_some.mp h'
  rw [h1] at h1'
  simp only [List.cons.injEq] at h1'
  obtain ⟨hm, hr⟩ := h1'
  subst hr
  exact ⟨marker_injective hm, h2.symm.trans h2'⟩

theorem lineExpr_cases (line : GoString) :
    (∀ c, lineExpr c line = none) ∨ ∃ c e, lineExpr c line = some e := by
  by_cases h : ∃ c e, lineExpr c line = some e
  · exact Or.inr h
  · refine Or.inl fun c => ?_
    cases hc : lineExpr c line with
    | none => rfl
    | some e => exact absurd ⟨c, e, hc⟩ h

/-- One iteration keeps the invariants of the maps and adds at most the expression
of the line to the map of its category. -/
theorem parseLine_ok_inv (x : External ρ ε) {deps deps' : Deps ρ} {line : GoString}
    (h : parseLine x deps line = .ok deps') (hp : deps.Parsed x) (hn : deps.NodupKeys) :
    deps'.Parsed x ∧ deps'.NodupKeys ∧
      ∀ c e, e ∈ keysOf (deps'.get c) ↔ e ∈ keysOf (deps.get c) ∨ lineExpr c line = some e := by
  rcases lineExpr_cases line with hnone | ⟨c, e, hc⟩
  · rw [parseLine_of_no_lineExpr x deps hnone] at h
    cases h
    refine ⟨hp, hn, fun c e => ?_⟩
    simp [hnone c]
  · rw [parseLine_of_lineExpr x deps hc] at h
    have hiff : ∀ c' e', lineExpr c' line = some e' ↔ c' = c ∧ e' = e := by
      intro c' e'
      constructor
      · intro h'
        exact lineExpr_category h' hc
      · rintro ⟨rfl, rfl⟩
        exact hc
    by_cases hk : e ∈ keysOf (deps.get c)
    · simp only [hk, if_true] at h
      cases h
      refine ⟨hp, hn, fun c' e' => ?_⟩
      rw [hiff]
      constructor
      · exact Or.inl
      · rintro (h | ⟨rfl, rfl⟩)
        · exact h
        · exact hk
    · simp only [hk, if_false] at h
      cases hr : x.NewRelation e with
      | error err => rw [hr] at h; cases h
      | ok r =>
        rw [hr] at h
        cases h
        have hget : ∀ c', c' ≠ c → (deps.set c (deps.get c ++ [(e, r)])).get c' = deps.get c' :=
          fun c' hne => Deps.get_set_of_ne deps _ hne
        refine ⟨?_, ?_, ?_⟩
        · intro c' p hpm
          by_cases hcc : c' = c
          · subst hcc
            rw [Deps.get_set_self] at hpm
            rcases List.mem_append.mp hpm with hpm | hpm
            · exact hp _ p hpm
            · simp only [List.mem_singleton] at hpm
              subst hpm
              exact hr
          · rw [hget c' hcc] at hpm
            exact hp _ p hpm
        · intro c'
          by_cases hcc : c' = c
          · subst hcc
            rw [Deps.get_set_self]
            simp only [keysOf, List.map_append, List.map_cons, List.map_nil]
            refine List.Nodup.append (hn c') (List.nodup_singleton e) ?_
            intro k hk1 hk2
            simp only [List.mem_singleton] at hk2
            subst hk2
            exact hk hk1
          · rw [hget c' hcc]
            exact hn c'
        · intro c' e'
          rw [hiff]
          by_cases hcc : c' = c
          · subst hcc
            rw [Deps.get_set_self]
            simp [keysOf]
          · rw [hget c' hcc]
            simp [hcc]

/-- The loop keeps the invariants of the maps; its final keys are the initial keys
and the expressions submitted by the lines. -/
theorem parseLines_ok_inv (x : External ρ ε) :
    ∀ (lines : List GoString) (deps deps' : Deps ρ), parseLines x deps lines = .ok deps' →
      deps.Parsed x → deps.NodupKeys →
      deps'.Parsed x ∧ deps'.NodupKeys ∧
        ∀ c e, e ∈ keysOf (deps'.get c) ↔
          e ∈ keysOf (deps.get c) ∨ e ∈ lines.filterMap (lineExpr c)
  | [], deps, deps', h, hp, hn => by
    simp only [parseLines] at h
    cases h
    exact ⟨hp, hn, by simp⟩
  | line :: rest, deps, deps', h, hp, hn => by
    simp only [parseLines] at h
    cases h1 : parseLine x deps line with
    | error err => rw [h1] at h; cases h
    | ok d =>
      rw [h1] at h
      obtain ⟨hp1, hn1, hk1⟩ := parseLine_ok_inv x h1 hp hn
      obtain ⟨hp2, hn2, hk2⟩ := parseLines_ok_inv x rest d deps' h hp1 hn1
      refine ⟨hp2, hn2, fun c e => ?_⟩
      rw [hk2, hk1]
      cases hl : lineExpr c line with
      | none => simp [List.filterMap_cons, hl]
      | some e' =>
        simp only [List.filterMap_cons, hl, List.mem_cons, Option.some.injEq]
        constructor
        · rintro ((h | h) | h)
          · exact Or.inl h
          · exact Or.inr (Or.inl h.symm)
          · exact Or.inr (Or.inr h)
        · rintro (h | h | h)
          · exact Or.inl (Or.inl h)
          · exact Or.inl (Or.inr h.symm)
          · exact Or.inr h

theorem Deps.parsed_empty (x : External ρ ε) : ({} : Deps ρ).Parsed x := by
  intro c p hp
  cases c <;> simp [Deps.get] at hp

theorem Deps.nodupKeys_empty : ({} : Deps ρ).NodupKeys := by
  intro c
  cases c <;> simp [Deps.get, keysOf]

/-! ## `mapValues` -/

theorem mapValues_eq (ord : RangeOrder) (m : List (GoString × ρ)) :
    mapValues ord m =
      (SortStrings (ord.iter (keysOf m))).filterMap (fun k => m.lookup k) := by
  unfold mapValues
  cases m with
  | nil =>
    have h : ord.iter (keysOf ([] : List (GoString × ρ))) = [] :=
      List.Perm.eq_nil (ord.perm _)
    simp [h, SortStrings]
  | cons p m => simp [keysOf]

/-- The result of `mapValues` does not depend on the order of the `range` loop. -/
theorem mapValues_order_irrelevant (ord₁ ord₂ : RangeOrder) (m : List (GoString × ρ)) :
    mapValues ord₁ m = mapValues ord₂ m := by
  rw [mapValues_eq, mapValues_eq,
    SortStrings_congr ((ord₁.perm (keysOf m)).trans (ord₂.perm (keysOf m)).symm)]

theorem forall₂_filterMap {α β : Type} (P : α → β → Prop) (f : α → Option β) :
    ∀ l : List α, (∀ a ∈ l, ∃ b, f a = some b ∧ P a b) → List.Forall₂ P l (l.filterMap f)
  | [], _ => List.Forall₂.nil
  | a :: l, h => by
    obtain ⟨b, hb, hP⟩ := h a (List.mem_cons_self a l)
    rw [List.filterMap_cons, hb]
    exact List.Forall₂.cons hP
      (forall₂_filterMap P f l fun a' ha' => h a' (List.mem_cons_of_mem a ha'))

/-- The list returned by `mapValues` for a map with distinct keys whose entries hold
the relation parsed from their key. -/
theorem mapValues_spec (x : External ρ ε) (ord : RangeOrder) (m : List (GoString × ρ))
    (hp : ∀ p ∈ m, x.NewRelation p.1 = .ok p.2) (hn : (keysOf m).Nodup) :
    ∃ ks : List GoString, ks.Pairwise (fun a b => strLess a b = true) ∧
      (∀ e, e ∈ ks ↔ e ∈ keysOf m) ∧
      List.Forall₂ (fun e r => x.NewRelation e = .ok r) ks (mapValues ord m) := by
  have hperm : (SortStrings (ord.iter (keysOf m))).Perm (keysOf m) :=
    (SortStrings_perm _).trans (ord.perm _)
  refine ⟨SortStrings (ord.iter (keysOf m)), ?_, fun e => hperm.mem_iff, ?_⟩
  · exact SortStrings_strict ((ord.perm _).nodup_iff.mpr hn)
  · rw [mapValues_eq]
    refine forall₂_filterMap _ _ _ fun k hk => ?_
    obtain ⟨r, h1, h2⟩ := lookup_of_mem_keysOf (hperm.mem_iff.mp hk)
    exact ⟨r, h1, hp _ h2⟩

/-! ## `ParseRpmdepsOutput` -/

theorem ParseRpmdepsOutput_ok_iff (x : External ρ ε) (ord : Nat → RangeOrder)
    (output : GoString) (md : RPMMetaData ρ) :
    ParseRpmdepsOutput x ord output = (md, none) ↔
      ∃ deps, parseLines x {} (SplitSeq output 10) = .ok deps ∧
        md = { Requires := mapValues (ord 0) deps.requires
               Recommends := mapValues (ord 1) deps.recommends
               Provides := mapValues (ord 2) deps.provides
               Conflicts := mapValues (ord 3) deps.conflicts
               Obsoletes := mapValues (ord 4) deps.obsoletes
               Suggests := mapValues (ord 5) deps.suggests } := by
  unfold ParseRpmdepsOutput
  cases h : parseLines x {} (SplitSeq output 10) with
  | error err => simp
  | ok deps =>
    simp only [Prod.mk.injEq, and_true, Except.ok.injEq, exists_eq_left']
    exact eq_comm

/-- On success every category of the result is the list of the relations parsed from
the expressions submitted for it, each expression once, in strictly increasing order. -/
theorem ParseRpmdepsOutput_ok (x : External ρ ε) (ord : Nat → RangeOrder)
    (output : GoString) (md : RPMMetaData ρ)
    (h : ParseRpmdepsOutput x ord output = (md, none)) (c : Category) :
    ∃ ks : List GoString, ks.Pairwise (fun a b => strLess a b = true) ∧
      (∀ e, e ∈ ks ↔ e ∈ submitted c output) ∧
      List.Forall₂ (fun e r => x.NewRelation e = .ok r) ks (md.rels c) := by
  obtain ⟨deps, hd, hmd⟩ := (ParseRpmdepsOutput_ok_iff x ord output md).mp h
  obtain ⟨hp, hn, hk⟩ := parseLines_ok_inv x _ _ _ hd (Deps.parsed_empty x) Deps.nodupKeys_empty
  have hkeys : ∀ e, e ∈ keysOf (deps.get c) ↔ e ∈ submitted c output := by
    intro e
    rw [hk c e]
    have : e ∉ keysOf (({} : Deps ρ).get c) := by cases c <;> simp [Deps.get, keysOf]
    simp [this, submitted]
  have key : ∀ o : RangeOrder, ∃ ks : List GoString,
      ks.Pairwise (fun a b => strLess a b = true) ∧
      (∀ e, e ∈ ks ↔ e ∈ submitted c output) ∧
      List.Forall₂ (fun e r => x.NewRelation e = .ok r) ks (mapValues o (deps.get c)) := by
    intro o
    obtain ⟨ks, h1, h2, h3⟩ := mapValues_spec x o (deps.get c) (hp c) (hn c)
    exact ⟨ks, h1, fun e => (h2 e).trans (hkeys e), h3⟩
  subst hmd
  cases c
  · exact key (ord 0)
  · exact key (ord 1)
  · exact key (ord 2)
  · exact key (ord 3)
  · exact key (ord 4)
  · exact key (ord 5)

theorem mem_submitted_iff {c : Category} {output e : GoString} :
    e ∈ submitted c output ↔
      ∃ line ∈ SplitSeq output 10, ∃ rest,
        TrimSpace line = marker c :: rest ∧ TrimSpace rest = e := by
  simp only [submitted, List.mem_filterMap, lineExpr_eq_some]

/-! ## Lines: `SplitSeq` and `Join` -/

theorem SplitSeq_ne_nil (s : GoString) (sep : Nat) : SplitSeq s sep ≠ [] := by
  cases s with
  | nil => simp [SplitSeq]
  | cons b s =>
    unfold SplitSeq
    split_ifs
    · simp
    · split <;> simp

theorem SplitSeq_no_sep (sep : Nat) : ∀ (s : GoString), ∀ l ∈ SplitSeq s sep, sep ∉ l
  | [], l, hl => by
    simp only [SplitSeq, List.mem_singleton] at hl
    subst hl
    simp
  | b :: s, l, hl => by
    have ih := SplitSeq_no_sep sep s
    unfold SplitSeq at hl
    split_ifs at hl with hb
    · rcases List.mem_cons.mp hl with h | h
      · subst h; simp
      · exact ih l h
    · cases hs : SplitSeq s sep with
      | nil => exact absurd hs (SplitSeq_ne_nil s sep)
      | cons l' ls =>
        rw [hs] at hl ih
        simp only [List.mem_cons] at hl
        rcases hl with h | h
        · subst h
          intro hmem
          rcases List.mem_cons.mp hmem with h' | h'
          · exact hb h'.symm
          · exact ih l' (List.mem_cons_self _ _) h'
        · exact ih l (List.mem_cons_of_mem _ h)

theorem SplitSeq_of_no_sep (sep : Nat) : ∀ l : GoString, sep ∉ l → SplitSeq l sep = [l]
  | [], _ => rfl
  | b :: l, h => by
    have hb : b ≠ sep := fun hb => h (hb ▸ List.mem_cons_self _ _)
    have hl : sep ∉ l := fun hl => h (List.mem_cons_of_mem _ hl)
    unfold SplitSeq
    rw [if_neg hb, SplitSeq_of_no_sep sep l hl]

theorem SplitSeq_append_sep (sep : Nat) (s : GoString) :
    ∀ l : GoString, sep ∉ l → SplitSeq (l ++ sep :: s) sep = l :: SplitSeq s sep
  | [], _ => by simp [SplitSeq]
  | b :: l, h => by
    have hb : b ≠ sep := fun hb => h (hb ▸ List.mem_cons_self _ _)
    have hl : sep ∉ l := fun hl => h (List.mem_cons_of_mem _ hl)
    rw [List.cons_append, SplitSeq, if_neg hb, SplitSeq_append_sep sep s l hl]

/-- Splitting the joined lines gives the lines back. -/
theorem SplitSeq_Join (sep : Nat) :
    ∀ ls : List GoString, ls ≠ [] → (∀ l ∈ ls, sep ∉ l) → SplitSeq (Join ls sep) sep = ls
  | [], h, _ => absurd rfl h
  | [l], _, h => by
    simp only [Join]
    exact SplitSeq_of_no_sep sep l (h l (List.mem_singleton_self l))
  | l :: l' :: ls, _, h => by
    simp only [Join]
    rw [SplitSeq_append_sep sep _ l (h l (List.mem_cons_self _ _)),
      SplitSeq_Join sep (l' :: ls) (List.cons_ne_nil _ _)
        (fun m hm => h m (List.mem_cons_of_mem _ hm))]

/-- The input is its lines joined by line feeds. -/
theorem Join_SplitSeq (sep : Nat) : ∀ s : GoString, Join (SplitSeq s sep) sep = s
  | [] => rfl
  | b :: s => by
    have ih := Join_SplitSeq sep s
    unfold SplitSeq
    split_ifs with hb
    · cases hs : SplitSeq s sep with
      | nil => exact absurd hs (SplitSeq_ne_nil s sep)
      | cons l ls =>
        rw [hs] at ih
        simp only [Join, List.nil_append, ih, hb]
    · cases hs : SplitSeq s sep with
      | nil => exact absurd hs (SplitSeq_ne_nil s sep)
      | cons l ls =>
        rw [hs] at ih
        cases ls with
        | nil =>
          simp only [Join] at ih ⊢
          rw [ih]
        | cons l' ls =>
          simp only [Join, List.cons_append] at ih ⊢
          rw [ih]

theorem lineExpr_of_ignoredLine {line : GoString} (h : ignoredLine line = true)
    (c : Category) : lineExpr c line = none := by
  unfold ignoredLine at h
  unfold lineExpr
  cases ht : TrimSpace line with
  | nil => rfl
  | cons b rest =>
    rw [ht] at h
    have hne : b ≠ marker c := by
      intro hbc
      subst hbc
      cases c <;> simp [marker, IsDigit] at h
    simp [hne]

theorem parseLine_of_ignoredLine (x : External ρ ε) (deps : Deps ρ) {line : GoString}
    (h : ignoredLine line = true) : parseLine x deps line = .ok deps :=
  parseLine_of_no_lineExpr x deps (lineExpr_of_ignoredLine h)

theorem parseLines_eraseIdx (x : External ρ ε) {line : GoString}
    (hl : ∀ deps : Deps ρ, parseLine x deps line = .ok deps) :
    ∀ (lines : List GoString) (i : Nat) (deps : Deps ρ), lines[i]? = some line →
      parseLines x deps (lines.eraseIdx i) = parseLines x deps lines
  | [], _, _, h => by simp at h
  | l :: lines, 0, deps, h => by
    simp only [List.getElem?_cons_zero, Option.some.injEq] at h
    subst h
    simp only [List.eraseIdx_cons_zero, parseLines, hl deps]
  | l :: lines, i + 1, deps, h => by
    simp only [List.getElem?_cons_succ] at h
    simp only [List.eraseIdx_cons_succ, parseLines]
    cases parseLine x deps l with
    | error err => rfl
    | ok d => exact parseLines_eraseIdx x hl lines i d h

theorem parseLine_empty (x : External ρ ε) (deps : Deps ρ) : parseLine x deps [] = .ok deps := rfl

theorem parseLines_deleteLine (x : External ρ ε) (output : GoString) (i : Nat)
    {line : GoString} (hline : (SplitSeq output 10)[i]? = some line)
    (hign : ignoredLine line = true) :
    parseLines x {} (SplitSeq (deleteLine output i) 10) =
      parseLines x ({} : Deps ρ) (SplitSeq output 10) := by
  have herase := parseLines_eraseIdx x (fun d => parseLine_of_ignoredLine x d hign)
    (SplitSeq output 10) i {} hline
  unfold deleteLine
  by_cases hnil : (SplitSeq output 10).eraseIdx i = []
  · rw [hnil] at herase ⊢
    rw [← herase]
    rfl
  · rw [SplitSeq_Join 10 _ hnil
      (fun l hl => SplitSeq_no_sep 10 output l (List.mem_of_mem_eraseIdx hl))]
    exact herase

/-- The loop fails at the first line whose expression does not parse, with the error
built from that expression. -/
theorem parseLines_error (x : External ρ ε) :
    ∀ (lines : List GoString) (deps : Deps ρ), deps.Parsed x → deps.NodupKeys →
      (∃ line ∈ lines, ∃ c e err, lineExpr c line = some e ∧ x.NewRelation e = .error err) →
      ∃ pre line post c e err, lines = pre ++ line :: post ∧
        (∀ l ∈ pre, ∀ c' e', lineExpr c' l = some e' → ∃ r, x.NewRelation e' = .ok r) ∧
        lineExpr c line = some e ∧ x.NewRelation e = .error err ∧
        parseLines x deps lines = .error (invalidDependency x e err)
  | [], _, _, _, h => by
    obtain ⟨line, hl, _⟩ := h
    exact absurd hl (List.not_mem_nil line)
  | l :: lines, deps, hp, hn, h => by
    -- either the head line fails, or the loop goes on with the invariants kept
    by_cases hhead : ∃ c e err, lineExpr c l = some e ∧ x.NewRelation e = .error err
    · obtain ⟨c, e, err, hc, he⟩ := hhead
      refine ⟨[], l, lines, c, e, err, rfl, by simp, hc, he, ?_⟩
      have hk : e ∉ keysOf (deps.get c) := by
        intro hk
        obtain ⟨r, _, hmem⟩ := lookup_of_mem_keysOf hk
        have := hp c _ hmem
        rw [he] at this
        cases this
      simp only [parseLines, parseLine_of_lineExpr x deps hc, hk, if_false, he]
    · have hok : ∀ c' e', lineExpr c' l = some e' → ∃ r, x.NewRelation e' = .ok r := by
        intro c' e' hc'
        cases hr : x.NewRelation e' with
        | error err => exact absurd ⟨c', e', err, hc', hr⟩ hhead
        | ok r => exact ⟨r, rfl⟩
      have hstep : ∃ d, parseLine x deps l = .ok d := by
        rcases lineExpr_cases l with hnone | ⟨c, e, hc⟩
        · exact ⟨deps, parseLine_of_no_lineExpr x deps hnone⟩
        · obtain ⟨r, hr⟩ := hok c e hc
          rw [parseLine_of_lineExpr x deps hc, hr]
          by_cases hk : e ∈ keysOf (deps.get c)
          · exact ⟨deps, by simp [hk]⟩
          · exact ⟨deps.set c (deps.get c ++ [(e, r)]), by simp only [hk, if_false]⟩
      obtain ⟨d, hd⟩ := hstep
      obtain ⟨hp', hn', _⟩ := parseLine_ok_inv x hd hp hn
      have hrest : ∃ line ∈ lines, ∃ c e err,
          lineExpr c line = some e ∧ x.NewRelation e = .error err := by
        obtain ⟨line, hl, hbad⟩ := h
        rcases List.mem_cons.mp hl with heq | hmem
        · subst heq
          exact absurd hbad hhead
        · exact ⟨line, hmem, hbad⟩
      obtain ⟨pre, line, post, c, e, err, h1, h2, h3, h4, h5⟩ :=
        parseLines_error x lines d hp' hn' hrest
      refine ⟨l :: pre, line, post, c, e, err, by rw [h1]; rfl, ?_, h3, h4, ?_⟩
      · intro l' hl'
        rcases List.mem_cons.mp hl' with heq | hmem
        · subst heq
          exact hok
        · exact h2 l' hmem
      · simp only [parseLines, hd, h5]

variable {φ : Type}

/-! ## `AddRpmDependenciesFromConfig` -/

theorem strToRelations_ok_iff (x : External ρ ε) :
    ∀ (deps : List GoString) (rels : List ρ), strToRelations x deps = .ok rels ↔
      List.Forall₂ (fun e r => x.NewRelation e = .ok r) deps rels
  | [], rels => by
    simp only [strToRelations, Except.ok.injEq, List.forall₂_nil_left_iff]
    exact eq_comm
  | d :: deps, rels => by
    simp only [strToRelations]
    cases hd : x.NewRelation d with
    | error err =>
      constructor
      · intro h; cases h
      · intro h
        cases h with
        | cons h1 _ => rw [hd] at h1; cases h1
    | ok r =>
      cases hr : strToRelations x deps with
      | error err =>
        constructor
        · intro h; cases h
        · intro h
          cases h with
          | cons _ h2 =>
            rw [← strToRelations_ok_iff x deps _, hr] at h2
            cases h2
      | ok rs =>
        simp only [Except.ok.injEq]
        constructor
        · intro h
          subst h
          exact List.Forall₂.cons hd ((strToRelations_ok_iff x deps rs).mp hr)
        · intro h
          cases h with
          | cons h1 h2 =>
            rw [hd] at h1
            cases h1
            rw [← strToRelations_ok_iff x deps _, hr] at h2
            cases h2
            rfl

theorem strToRelations_error_iff (x : External ρ ε) :
    ∀ deps : List GoString, (∃ err, strToRelations x deps = .error err) ↔
      ∃ e ∈ deps, ∃ err, x.NewRelation e = .error err
  | [] => by simp [strToRelations]
  | d :: deps => by
    have ih := strToRelations_error_iff x deps
    simp only [strToRelations]
    cases hd : x.NewRelation d with
    | error err =>
      simp only [Except.error.injEq, exists_eq', true_iff]
      exact ⟨d, List.mem_cons_self _ _, err, hd⟩
    | ok r =>
      cases hr : strToRelations x deps with
      | error err =>
        rw [hr] at ih
        simp only [Except.error.injEq, exists_eq', true_iff] at ih ⊢
        obtain ⟨e, he, herr⟩ := ih
        exact ⟨e, List.mem_cons_of_mem _ he, herr⟩
      | ok rs =>
        rw [hr] at ih
        constructor
        · rintro ⟨err, h⟩
          cases h
        · rintro ⟨e, he, err, herr⟩
          rcases List.mem_cons.mp he with heq | hmem
          · subst heq
            rw [hd] at herr
            cases herr
          · obtain ⟨err', h'⟩ := ih.mpr ⟨e, hmem, err, herr⟩
            cases h'

theorem strToRelations_cases (x : External ρ ε) (deps : List GoString) :
    (∃ rels, strToRelations x deps = .ok rels ∧
        List.Forall₂ (fun e r => x.NewRelation e = .ok r) deps rels) ∨
      ((∃ err, strToRelations x deps = .error err) ∧
        ∃ e ∈ deps, ∃ err, x.NewRelation e = .error err) := by
  cases h : strToRelations x deps with
  | ok rels => exact Or.inl ⟨rels, rfl, (strToRelations_ok_iff x deps rels).mp h⟩
  | error err =>
    exact Or.inr ⟨⟨err, rfl⟩, (strToRelations_error_iff x deps).mp ⟨err, h⟩⟩

/-- The two outcomes of `AddRpmDependenciesFromConfig`: the empty record and an error,
some declared expression not parsing; or no error, every declared expression parsing,
and the record `m` with the parsed relations appended to its six lists. -/
theorem AddRpmDependenciesFromConfig_cases (x : External ρ ε) (m : RPMMetaData ρ)
    (rpmPkg : RpmPackage) :
    ((∃ err, AddRpmDependenciesFromConfig x m rpmPkg = ({}, some err)) ∧
      ∃ c, ∃ e ∈ declared rpmPkg c, ∃ err, x.NewRelation e = .error err) ∨
    ((∀ c, ∀ e ∈ declared rpmPkg c, ∃ r, x.NewRelation e = .ok r) ∧
      ∃ cfg : Category → List ρ,
        (∀ c, List.Forall₂ (fun e r => x.NewRelation e = .ok r) (declared rpmPkg c) (cfg c)) ∧
        AddRpmDependenciesFromConfig x m rpmPkg =
          ({ m with
              Provides := m.Provides ++ cfg .provides
              Requires := m.Requires ++ cfg .requires
              Obsoletes := m.Obsoletes ++ cfg .obsoletes
              Conflicts := m.Conflicts ++ cfg .conflicts
              Recommends := m.Recommends ++ cfg .recommends
              Suggests := m.Suggests ++ cfg .suggests }, none)) := by
  have hreq : ([] : List GoString) ++ rpmPkg.Requires ++ rpmPkg.RequiresPre ++ rpmPkg.RequiresPost ++
      rpmPkg.RequiresPreUn ++ rpmPkg.RequiresPostUn ++ rpmPkg.RequiresPreTrans ++
      rpmPkg.RequiresPostTrans ++ rpmPkg.RequiresVerify ++ rpmPkg.RequiresInterp ++
      rpmPkg.RequiresMeta = declared rpmPkg .requires := by
    simp [declared]
  unfold AddRpmDependenciesFromConfig
  simp only [hreq]
  rcases strToRelations_cases x rpmPkg.Provides with ⟨pr, h1, f1⟩ | ⟨⟨err, h1⟩, b1⟩
  swap
  · rw [h1]; exact Or.inl ⟨⟨_, rfl⟩, .provides, b1⟩
  rcases strToRelations_cases x (declared rpmPkg .requires) with ⟨rq, h2, f2⟩ | ⟨⟨err, h2⟩, b2⟩
  swap
  · rw [h1, h2]; exact Or.inl ⟨⟨_, rfl⟩, .requires, b2⟩
  rcases strToRelations_cases x rpmPkg.Obsoletes with ⟨ob, h3, f3⟩ | ⟨⟨err, h3⟩, b3⟩
  swap
  · rw [h1, h2, h3]; exact Or.inl ⟨⟨_, rfl⟩, .obsoletes, b3⟩
  rcases strToRelations_cases x rpmPkg.Conflicts with ⟨cf, h4, f4⟩ | ⟨⟨err, h4⟩, b4⟩
  swap
  · rw [h1, h2, h3, h4]; exact Or.inl ⟨⟨_, rfl⟩, .conflicts, b4⟩
  rcases strToRelations_cases x rpmPkg.Recommends with ⟨rc, h5, f5⟩ | ⟨⟨err, h5⟩, b5⟩
  swap
  · rw [h1, h2, h3, h4, h5]; exact Or.inl ⟨⟨_, rfl⟩, .recommends, b5⟩
  rcases strToRelations_cases x rpmPkg.Suggests with ⟨sg, h6, f6⟩ | ⟨⟨err, h6⟩, b6⟩
  swap
  · rw [h1, h2, h3, h4, h5, h6]; exact Or.inl ⟨⟨_, rfl⟩, .suggests, b6⟩
  rw [h1, h2, h3, h4, h5, h6]
  refine Or.inr ⟨?_, fun c => match c with
    | .requires => rq | .recommends => rc | .provides => pr
    | .conflicts => cf | .obsoletes => ob | .suggests => sg, ?_, rfl⟩
  · intro c e he
    have hall : ∀ (l : List GoString) (rels : List ρ),
        List.Forall₂ (fun e r => x.NewRelation e = .ok r) l rels →
        ∀ e ∈ l, ∃ r, x.NewRelation e = .ok r := by
      intro l rels hf
      induction hf with
      | nil => intro e he; exact absurd he (List.not_mem_nil e)
      | cons h _ ih =>
        intro e he
        rcases List.mem_cons.mp he with heq | hmem
        · subst heq; exact ⟨_, h⟩
        · exact ih e hmem
    cases c
    · exact hall _ _ f2 e he
    · exact hall _ _ f5 e he
    · exact hall _ _ f1 e he
    · exact hall _ _ f4 e he
    · exact hall _ _ f3 e he
    · exact hall _ _ f6 e he
  · intro c
    cases c
    · exact f2
    · exact f5
    · exact f1
    · exact f4
    · exact f3
    · exact f6

/-! ## `AddRpmMetadataFromImageLabels` and the merge of `RpmFromLayer` -/

/-- The assignments of `AddRpmMetadataFromImageLabels` in closed form, for arbitrary
results of the eight label lookups. -/
theorem labels_closed_form (m : RPMMetaData ρ) (ver url title description licenses name release
    epoch : Option GoString) (created : Option Int) :
    (let m := match ver with
        | some ver => { m with Version := ver }
        | none => m
      let m := match url with
        | some url => { m with URL := url }
        | none => m
      let m := match title with
        | some title => { m with Summary := title }
        | none => m
      let m := match description with
        | some description => { m with Description := description }
        | none => m
      let m := match licenses with
        | some licenses => { m with Licence := licenses }
        | none => m
      let m := match name with
        | some name => { m with Name := name }
        | none => m
      let m := match release with
        | some release => { m with Release := release }
        | none => m
      let withCreated (m : RPMMetaData ρ) : RPMMetaData ρ :=
        match created with
        | some created => { m with BuildTime := created }
        | none => m
      match epoch with
      | some epoch =>
        match ParseInt epoch 32 with
        | .error err => (({} : RPMMetaData ρ), some (GoError.num err : GoError ε))
        | .ok i => (withCreated { m with Epoch := uint32 i }, none)
      | none => (withCreated m, none)) =
    (let labelled (e : Nat) : RPMMetaData ρ :=
        { m with
          Version := ver.getD m.Version
          URL := url.getD m.URL
          Summary := title.getD m.Summary
          Description := description.getD m.Description
          Licence := licenses.getD m.Licence
          Name := name.getD m.Name
          Release := release.getD m.Release
          Epoch := e
          BuildTime := created.getD m.BuildTime };
      match epoch with
      | some epoch =>
        match ParseInt epoch 32 with
        | .error err => ({}, some (.num err))
        | .ok i => (labelled (uint32 i), none)
      | none => (labelled m.Epoch, none)) := by
  cases ver <;> cases url <;> cases title <;> cases description <;> cases licenses <;>
    cases name <;> cases release <;> cases created <;> cases epoch <;>
    rfl

/-- `AddRpmMetadataFromImageLabels` in closed form. -/
theorem AddRpmMetadataFromImageLabels_eq (m : RPMMetaData ρ) (img : Image ε) :
    AddRpmMetadataFromImageLabels m img =
      match img.Inspect with
      | .error err => ({}, some (.ext err))
      | .ok inspect =>
        match inspect.Labels (ascii "org.rpm.epoch") with
        | some epoch =>
          match ParseInt epoch 32 with
          | .error err => ({}, some (.num err))
          | .ok i => (withLabels m inspect (uint32 i), none)
        | none => (withLabels m inspect m.Epoch, none) := by
  unfold AddRpmMetadataFromImageLabels
  cases img.Inspect with
  | error err => rfl
  | ok inspect => exact labels_closed_form m _ _ _ _ _ _ _ _ _

/-- Eight conditional assignments to eight fields in closed form, for arbitrary
conditions and values. -/
theorem assignments_closed_form (md : RPMMetaData ρ) (c1 c2 c3 c4 c5 c6 c7 c8 : Prop)
    [d1 : Decidable c1] [d2 : Decidable c2] [d3 : Decidable c3] [d4 : Decidable c4]
    [d5 : Decidable c5] [d6 : Decidable c6] [d7 : Decidable c7] [d8 : Decidable c8]
    (v1 v2 v3 v4 v5 v6 v7 : GoString) (v8 : Nat) :
    (let metaData := if c1 then { md with Name := v1 } else md
      let metaData := if c2 then { metaData with Version := v2 } else metaData
      let metaData := if c3 then { metaData with Release := v3 } else metaData
      let metaData := if c4 then { metaData with Summary := v4 } else metaData
      let metaData := if c5 then { metaData with Description := v5 } else metaData
      let metaData := if c6 then { metaData with URL := v6 } else metaData
      let metaData := if c7 then { metaData with Licence := v7 } else metaData
      let metaData := if c8 then { metaData with Epoch := v8 } else metaData
      metaData) =
    { md with
      Name := if c1 then v1 else md.Name
      Version := if c2 then v2 else md.Version
      Release := if c3 then v3 else md.Release
      Summary := if c4 then v4 else md.Summary
      Description := if c5 then v5 else md.Description
      URL := if c6 then v6 else md.URL
      Licence := if c7 then v7 else md.Licence
      Epoch := if c8 then v8 else md.Epoch } := by
  cases d1 <;> cases d2 <;> cases d3 <;> cases d4 <;> cases d5 <;> cases d6 <;> cases d7 <;>
    cases d8 <;> rfl

/-- The field-by-field merge of `RpmFromLayer` in closed form. -/
theorem mergeConfig_eq (md : RPMMetaData ρ) (rpmPkg : RpmPackage) :
    mergeConfig md rpmPkg =
      { md with
        Name := if rpmPkg.Name ≠ [] then rpmPkg.Name else md.Name
        Version := if rpmPkg.Version ≠ [] then rpmPkg.Version else md.Version
        Release := if rpmPkg.Release ≠ [] then rpmPkg.Release else md.Release
        Summary := if rpmPkg.Summary ≠ [] then rpmPkg.Summary else md.Summary
        Description := if rpmPkg.Description ≠ [] then rpmPkg.Description else md.Description
        URL := if rpmPkg.URL ≠ [] then rpmPkg.URL else md.URL
        Licence := if rpmPkg.License ≠ [] then rpmPkg.License else md.Licence
        Epoch := if rpmPkg.Epoch ≠ 0 then uint32 rpmPkg.Epoch else md.Epoch } :=
  assignments_closed_form md _ _ _ _ _ _ _ _ _ _ _ _ _ _ _ _

theorem mergePrecedence_eq (C : GoString) (L : Option GoString) :
    mergePrecedence C L = if C ≠ [] then C else L.getD [] := by
  unfold mergePrecedence
  cases L <;> rfl

/-- The outcome of the merge of `RpmFromLayer`, field by field. -/
theorem mergedMetaData_ok (img : Image ε) (rpmPkg : RpmPackage) (md : RPMMetaData ρ)
    (h : mergedMetaData img rpmPkg = .ok md) :
    ∃ inspect labelEpoch, img.Inspect = .ok inspect ∧
      md =
        { Name := mergePrecedence rpmPkg.Name (inspect.Labels (ascii "org.rpm.name"))
          Version := mergePrecedence rpmPkg.Version
            (inspect.Labels (ascii "org.opencontainers.image.version"))
          Release := mergePrecedence rpmPkg.Release (inspect.Labels (ascii "org.rpm.release"))
          Summary := mergePrecedence rpmPkg.Summary
            (inspect.Labels (ascii "org.opencontainers.image.title"))
          Description := mergePrecedence rpmPkg.Description
            (inspect.Labels (ascii "org.opencontainers.image.description"))
          URL := mergePrecedence rpmPkg.URL (inspect.Labels (ascii "org.opencontainers.image.url"))
          Licence := mergePrecedence rpmPkg.License
            (inspect.Labels (ascii "org.opencontainers.image.licenses"))
          Epoch := if rpmPkg.Epoch ≠ 0 then uint32 rpmPkg.Epoch else labelEpoch
          BuildTime := inspect.Created.getD 0
          OS := ascii "linux"
          Compressor := ascii "zstd"
          Group := rpmPkg.Group
          Packager := rpmPkg.Packager
          Vendor := rpmPkg.Vendor } := by
  have key : ∀ (inspect : ImageInspectInfo) (e : Nat),
      mergeConfig (withLabels (defaultMetaData rpmPkg : RPMMetaData ρ) inspect e) rpmPkg =
        { Name := mergePrecedence rpmPkg.Name (inspect.Labels (ascii "org.rpm.name"))
          Version := mergePrecedence rpmPkg.Version
            (inspect.Labels (ascii "org.opencontainers.image.version"))
          Release := mergePrecedence rpmPkg.Release (inspect.Labels (ascii "org.rpm.release"))
          Summary := mergePrecedence rpmPkg.Summary
            (inspect.Labels (ascii "org.opencontainers.image.title"))
          Description := mergePrecedence rpmPkg.Description
            (inspect.Labels (ascii "org.opencontainers.image.description"))
          URL := mergePrecedence rpmPkg.URL (inspect.Labels (ascii "org.opencontainers.image.url"))
          Licence := mergePrecedence rpmPkg.License
            (inspect.Labels (ascii "org.opencontainers.image.licenses"))
          Epoch := if rpmPkg.Epoch ≠ 0 then uint32 rpmPkg.Epoch else e
          BuildTime := inspect.Created.getD 0
          OS := ascii "linux"
          Compressor := ascii "zstd"
          Group := rpmPkg.Group
          Packager := rpmPkg.Packager
          Vendor := rpmPkg.Vendor } := by
    intro inspect e
    rw [mergeConfig_eq]
    simp only [mergePrecedence_eq]
    rfl
  unfold mergedMetaData at h
  rw [AddRpmMetadataFromImageLabels_eq] at h
  cases hi : img.Inspect with
  | error err => rw [hi] at h; cases h
  | ok inspect =>
    rw [hi] at h
    simp only at h
    cases he : inspect.Labels (ascii "org.rpm.epoch") with
    | none =>
      rw [he] at h
      simp only [Except.ok.injEq] at h
      exact ⟨inspect, _, rfl, by rw [← h, key]⟩
    | some epoch =>
      rw [he] at h
      simp only at h
      cases hp : ParseInt epoch 32 with
      | error err => rw [hp] at h; cases h
      | ok i =>
        rw [hp] at h
        simp only [Except.ok.injEq] at h
        exact ⟨inspect, _, rfl, by rw [← h, key]⟩

/-! ## `RpmFromLayer` -/

/-- A successful run of `RpmFromLayer`, step by step. -/
theorem RpmFromLayer_ok (env : BuildEnv ρ ε φ) (id : GoString) (rpmPkg : RpmPackage)
    (rpm : RPM ρ φ) (h : RpmFromLayer env id rpmPkg = .ok rpm) :
    ∃ img metaData m rpm0 filelist files autoMetadata,
      env.ImageFromId id = .ok img ∧
      mergedMetaData img rpmPkg = .ok metaData ∧
      AddRpmDependenciesFromConfig env.toExternal metaData rpmPkg = (m, none) ∧
      env.NewRPM m = .ok rpm0 ∧
      WalkTopLayerTree env img (rpmFromLayerCallback env) ([], rpm0.files) =
        ((filelist, files), none) ∧
      AutoReqProv env id filelist = (autoMetadata, none) ∧
      rpm = { rpm0 with
              files := files
              Provides := rpm0.Provides ++ autoMetadata.Provides
              Requires := rpm0.Requires ++ autoMetadata.Requires
              Recommends := rpm0.Recommends ++ autoMetadata.Recommends
              Obsoletes := rpm0.Obsoletes ++ autoMetadata.Obsoletes
              Suggests := rpm0.Suggests ++ autoMetadata.Suggests
              Conflicts := rpm0.Conflicts ++ autoMetadata.Conflicts } := by
  unfold RpmFromLayer at h
  cases h1 : env.ImageFromId id with
  | error err => rw [h1] at h; cases h
  | ok img =>
    rw [h1] at h
    simp only at h
    cases h2 : (mergedMetaData img rpmPkg : Except (GoError ε) (RPMMetaData ρ)) with
    | error err => rw [h2] at h; cases h
    | ok metaData =>
      rw [h2] at h
      simp only at h
      rcases h3 : AddRpmDependenciesFromConfig env.toExternal metaData rpmPkg with ⟨m, _ | err⟩
      swap
      · rw [h3] at h; cases h
      rw [h3] at h
      simp only at h
      cases h4 : env.NewRPM m with
      | error err => rw [h4] at h; cases h
      | ok rpm0 =>
        rw [h4] at h
        simp only at h
        rcases h5 : WalkTopLayerTree env img (rpmFromLayerCallback env)
          (([] : List GoString), rpm0.files) with ⟨⟨filelist, files⟩, _ | err⟩
        swap
        · rw [h5] at h; cases h
        rw [h5] at h
        simp only at h
        rcases h6 : AutoReqProv env id filelist with ⟨autoMetadata, _ | err⟩
        swap
        · rw [h6] at h; cases h
        rw [h6] at h
        simp only [Except.ok.injEq] at h
        exact ⟨img, metaData, m, rpm0, filelist, files, autoMetadata, rfl, h2, h3, h4, h5,
          h6, h.symm⟩

/-- The merged metadata holds no relation. -/
theorem mergedMetaData_rels (img : Image ε) (rpmPkg : RpmPackage) (md : RPMMetaData ρ)
    (h : mergedMetaData img rpmPkg = .ok md) (c : Category) : md.rels c = [] := by
  obtain ⟨inspect, e, _, hmd⟩ := mergedMetaData_ok img rpmPkg md h
  subst hmd
  cases c <;> rfl

/-! ## `strconv.ParseInt` and the epoch label -/

/-- A value returned by `ParseInt` with bit size 32 is a signed 32-bit integer. -/
theorem ParseInt_range (s : GoString) (i : Int) (h : ParseInt s 32 = .ok i) :
    -2147483648 ≤ i ∧ i ≤ 2147483647 := by
  unfold ParseInt at h
  cases s with
  | nil => simp at h
  | cons b t =>
    simp only at h
    split at h
    · cases h
    · cases h
    · rename_i un hun
      by_cases hneg : b = 45
      · have hb : (b == 45) = true := by simpa using hneg
        simp only [hb, Bool.not_true, Bool.false_and, Bool.true_and, if_true,
          Bool.false_eq_true, if_false, decide_eq_true_eq] at h
        split_ifs at h with h2
        simp only [Except.ok.injEq] at h
        norm_num at h2
        omega
      · have hb : (b == 45) = false := by simpa using hneg
        simp only [hb, Bool.not_false, Bool.false_and, Bool.true_and, if_true,
          Bool.false_eq_true, if_false, decide_eq_true_eq] at h
        split_ifs at h with h1
        simp only [Except.ok.injEq] at h
        norm_num at h1
        omega

/-- The conversion `uint32` keeps a non-negative signed 32-bit integer and maps a negative
one `i` to `2^32 + i`. -/
theorem uint32_of_range (i : Int) (h : -2147483648 ≤ i ∧ i ≤ 2147483647) :
    (uint32 i : Int) = if 0 ≤ i then i else 4294967296 + i := by
  unfold uint32
  split_ifs with h0 <;> omega

/-- The epoch label: `AddRpmMetadataFromImageLabels` fails with the empty record exactly
when `strconv.ParseInt(epoch, 10, 32)` fails, and otherwise stores the parsed integer
converted to `uint32`. -/
theorem AddRpmMetadataFromImageLabels_epoch (m : RPMMetaData ρ) (img : Image ε)
    (inspect : ImageInspectInfo) (s : GoString) (hi : img.Inspect = .ok inspect)
    (hs : inspect.Labels (ascii "org.rpm.epoch") = some s) :
    (∀ err, ParseInt s 32 = .error err →
      AddRpmMetadataFromImageLabels m img = ({}, some (.num err))) ∧
    (∀ i, ParseInt s 32 = .ok i →
      AddRpmMetadataFromImageLabels m img = (withLabels m inspect (uint32 i), none)) := by
  rw [AddRpmMetadataFromImageLabels_eq, hi]
  simp only [hs]
  constructor
  · intro err h; rw [h]
  · intro i h; rw [h]

variable {σ : Type}

/-! ## `WalkTopLayerTree` -/

/-- With an empty layer list `WalkTopLayerTree` takes the index `len(blobInfo)-1 = -1`
and panics, whenever the image source can be opened. -/
theorem WalkTopLayerTree_of_no_layers (env : BuildEnv ρ ε φ) (img : Image ε)
    (callback : σ → GoString → TarHeader → Option GoString → σ × Option (GoError ε)) (s : σ)
    (src : ImageSource ε) (hl : img.LayerInfosForCopy = .ok [])
    (hs : img.NewImageSource = .ok src) :
    WalkTopLayerTree env img callback s = (s, some (.indexOutOfRange (-1) 0)) := by
  unfold WalkTopLayerTree
  rw [hl, hs]
  rfl

/-- With a non-empty layer list `WalkTopLayerTree` fetches the blob of the last layer
only, and walks its archive. -/
theorem WalkTopLayerTree_of_layers (env : BuildEnv ρ ε φ) (img : Image ε)
    (callback : σ → GoString → TarHeader → Option GoString → σ × Option (GoError ε)) (s : σ)
    (src : ImageSource ε) (lower : List BlobInfo) (top : BlobInfo)
    (hl : img.LayerInfosForCopy = .ok (lower ++ [top])) (hs : img.NewImageSource = .ok src) :
    WalkTopLayerTree env img callback s =
      match src.GetBlob top with
      | .error err => (s, some (.ext err))
      | .ok blob =>
        match blob.AutoDecompress with
        | .error err => (s, some (.ext err))
        | .ok decompressedStream =>
          walkRecords env callback s decompressedStream.records decompressedStream.final := by
  unfold WalkTopLayerTree
  rw [hl, hs]
  have : (lower ++ [top])[(lower ++ [top]).length - 1]? = some top := by
    simp
  simp only [this]

/-- A record whose type flag is hardlink, symlink, character device, block device,
directory or fifo is passed over: the callback is not invoked for it. -/
theorem walkRecords_skips (env : BuildEnv ρ ε φ)
    (callback : σ → GoString → TarHeader → Option GoString → σ × Option (GoError ε)) (s : σ)
    (record : TarRecord ε) (rest : List (TarRecord ε)) (final : Option ε) (path : GoString)
    (hp : env.Abs record.hdr.Name = .ok path)
    (hk : record.hdr.Typeflag ∈ [TypeLink, TypeSymlink, TypeChar, TypeBlock, TypeDir, TypeFifo]) :
    walkRecords env callback s (record :: rest) final = walkRecords env callback s rest final := by
  have h1 : record.hdr.Typeflag ≠
      (TypeLink ||| TypeSymlink ||| TypeChar ||| TypeBlock ||| TypeDir ||| TypeFifo) := by
    intro h
    rw [h] at hk
    revert hk
    decide
  have h2 : record.hdr.Typeflag ≠ TypeReg := by
    intro h
    rw [h] at hk
    revert hk
    decide
  rw [walkRecords, hp]
  simp only [h1, h2, if_false]

/-- The only type flag of the first case of the switch is `'7'`. -/
theorem typeflag_case_eq :
    (TypeLink ||| TypeSymlink ||| TypeChar ||| TypeBlock ||| TypeDir ||| TypeFifo) = 55 := by
  decide

/-- A regular file whose `Read` ends the content is reported once with the buffer. -/
theorem walkRecords_regular (env : BuildEnv ρ ε φ)
    (callback : σ → GoString → TarHeader → Option GoString → σ × Option (GoError ε)) (s : σ)
    (record : TarRecord ε) (rest : List (TarRecord ε)) (final : Option ε) (path b : GoString)
    (hp : env.Abs record.hdr.Name = .ok path) (hk : record.hdr.Typeflag = TypeReg)
    (hr : record.Read = (b, .EOF)) :
    walkRecords env callback s (record :: rest) final =
      match callback s path record.hdr (some b) with
      | (s', some err) => (s', some err)
      | (s', none) => walkRecords env callback s' rest final := by
  have h1 : ¬ (TypeReg =
      (TypeLink ||| TypeSymlink ||| TypeChar ||| TypeBlock ||| TypeDir ||| TypeFifo)) := by
    decide
  rw [walkRecords, hp]
  simp only [hk, h1, if_false, if_true, hr]

/-- A regular file whose `Read` returns before the end of the content, with no error,
ends the walk: `WalkTopLayerTree` returns `nil`, the file and the records after it are
not reported. -/
theorem walkRecords_short_read (env : BuildEnv ρ ε φ)
    (callback : σ → GoString → TarHeader → Option GoString → σ × Option (GoError ε)) (s : σ)
    (record : TarRecord ε) (rest : List (TarRecord ε)) (final : Option ε) (path b : GoString)
    (hp : env.Abs record.hdr.Name = .ok path) (hk : record.hdr.Typeflag = TypeReg)
    (hr : record.Read = (b, .nil)) :
    walkRecords env callback s (record :: rest) final = (s, none) := by
  have h1 : ¬ (TypeReg =
      (TypeLink ||| TypeSymlink ||| TypeChar ||| TypeBlock ||| TypeDir ||| TypeFifo)) := by
    decide
  rw [walkRecords, hp]
  simp only [hk, h1, if_false, if_true, hr]

/-! ## The configured epoch -/

/-- The epoch after the field-by-field merge. -/
theorem mergeConfig_epoch (md : RPMMetaData ρ) (rpmPkg : RpmPackage) :
    (mergeConfig md rpmPkg).Epoch =
      if rpmPkg.Epoch ≠ 0 then uint32 rpmPkg.Epoch else md.Epoch := by
  rw [mergeConfig_eq]

/-- The conversion `uint32` keeps the integers from 0 to 2^32 - 1. -/
theorem uint32_of_lt (i : Int) (h0 : 0 ≤ i) (h1 : i < 4294967296) : (uint32 i : Int) = i := by
  unfold uint32
  omega

/-! ## Independence of the order of the lines -/

theorem strLE_of_strLess {a b : GoString} (h : strLess a b = true) : strLE a b :=
  strLess_asymm a b h

/-- Two strictly increasing lists with the same members are equal. -/
theorem eq_of_pairwise_strLess {k₁ k₂ : List GoString}
    (h₁ : k₁.Pairwise (fun a b => strLess a b = true))
    (h₂ : k₂.Pairwise (fun a b => strLess a b = true)) (hm : ∀ e, e ∈ k₁ ↔ e ∈ k₂) :
    k₁ = k₂ :=
  List.eq_of_perm_of_sorted
    ((List.perm_ext_iff_of_nodup (nodup_of_pairwise_strLess h₁)
      (nodup_of_pairwise_strLess h₂)).mpr hm)
    (h₁.imp strLE_of_strLess) (h₂.imp strLE_of_strLess)

/-- The relations parsed from a list of expressions are determined by the list. -/
theorem forall₂_parse_unique (x : External ρ ε) :
    ∀ (ks : List GoString) (l₁ l₂ : List ρ),
      List.Forall₂ (fun e r => x.NewRelation e = .ok r) ks l₁ →
      List.Forall₂ (fun e r => x.NewRelation e = .ok r) ks l₂ → l₁ = l₂
  | [], _, _, h₁, h₂ => by
    rw [List.forall₂_nil_left_iff.mp h₁, List.forall₂_nil_left_iff.mp h₂]
  | k :: ks, _, _, h₁, h₂ => by
    cases h₁ with
    | cons a₁ t₁ =>
      cases h₂ with
      | cons a₂ t₂ =>
        rw [a₁] at a₂
        cases a₂
        rw [forall₂_parse_unique x ks _ _ t₁ t₂]

/-- Two successful results are equal as soon as the same expressions were submitted
for every category. -/
theorem ParseRpmdepsOutput_eq_of_submitted (x : External ρ ε) (ord₁ ord₂ : Nat → RangeOrder)
    (out₁ out₂ : GoString) (md₁ md₂ : RPMMetaData ρ)
    (h₁ : ParseRpmdepsOutput x ord₁ out₁ = (md₁, none))
    (h₂ : ParseRpmdepsOutput x ord₂ out₂ = (md₂, none))
    (hs : ∀ c e, e ∈ submitted c out₁ ↔ e ∈ submitted c out₂) : md₁ = md₂ := by
  have hrels : ∀ c, md₁.rels c = md₂.rels c := by
    intro c
    obtain ⟨k₁, p₁, m₁, f₁⟩ := ParseRpmdepsOutput_ok x ord₁ out₁ md₁ h₁ c
    obtain ⟨k₂, p₂, m₂, f₂⟩ := ParseRpmdepsOutput_ok x ord₂ out₂ md₂ h₂ c
    have hk : k₁ = k₂ :=
      eq_of_pairwise_strLess p₁ p₂ fun e => ((m₁ e).trans (hs c e)).trans (m₂ e).symm
    subst hk
    exact forall₂_parse_unique x k₁ _ _ f₁ f₂
  obtain ⟨d₁, _, e₁⟩ := (ParseRpmdepsOutput_ok_iff x ord₁ out₁ md₁).mp h₁
  obtain ⟨d₂, _, e₂⟩ := (ParseRpmdepsOutput_ok_iff x ord₂ out₂ md₂).mp h₂
  have r0 := hrels .requires
  have r1 := hrels .recommends
  have r2 := hrels .provides
  have r3 := hrels .conflicts
  have r4 := hrels .obsoletes
  have r5 := hrels .suggests
  subst e₁ e₂
  simp only [RPMMetaData.rels] at r0 r1 r2 r3 r4 r5
  rw [r0, r1, r2, r3, r4, r5]

theorem submitted_of_lines {out₁ out₂ : GoString}
    (h : ∀ line, line ∈ SplitSeq out₁ 10 ↔ line ∈ SplitSeq out₂ 10) (c : Category)
    (e : GoString) : e ∈ submitted c out₁ ↔ e ∈ submitted c out₂ := by
  simp only [submitted, List.mem_filterMap, h]


/-! ## Claims about `ParseRpmdepsOutput` -/

/-- C1: on success, an expression is among those of a category of the result exactly when
some input line, trimmed, starts with the marker of that category and has that expression
as its trimmed remainder.  The expressions of a category are the texts from which the
relations of the returned list were parsed, one by one. -/
theorem ParseRpmdepsOutput_routes_markers (x : External ρ ε) (ord : Nat → RangeOrder)
    (output : GoString) (md : RPMMetaData ρ)
    (h : ParseRpmdepsOutput x ord output = (md, none)) :
    ∃ exprs : Category → List GoString,
      (∀ c, List.Forall₂ (fun e r => x.NewRelation e = .ok r) (exprs c) (md.rels c)) ∧
      ∀ c e, e ∈ exprs c ↔
        ∃ line ∈ SplitSeq output 10, ∃ rest,
          TrimSpace line = marker c :: rest ∧ TrimSpace rest = e := by
  choose exprs h1 h2 h3 using ParseRpmdepsOutput_ok x ord output md h
  exact ⟨exprs, h3, fun c e => (h2 c e).trans mem_submitted_iff⟩

set_option maxRecDepth 100000 in
theorem ParseRpmdepsOutput_routes_markers_witness :
    ((ParseRpmdepsOutput sampleExternal insertionOrder allTypesOutput).2 = none ∧
      ∀ c, ((ParseRpmdepsOutput sampleExternal insertionOrder allTypesOutput).1.rels c).length = 1) ∧
    ∃ exprs : Category → List GoString,
      (∀ c, List.Forall₂ (fun e r => sampleExternal.NewRelation e = .ok r) (exprs c)
        ((ParseRpmdepsOutput sampleExternal insertionOrder allTypesOutput).1.rels c)) ∧
      ∀ c e, e ∈ exprs c ↔
        ∃ line ∈ SplitSeq allTypesOutput 10, ∃ rest,
          TrimSpace line = marker c :: rest ∧ TrimSpace rest = e :=
  ⟨⟨by decide, fun c => by cases c <;> decide⟩,
    ParseRpmdepsOutput_routes_markers sampleExternal insertionOrder allTypesOutput _ rfl⟩

/-- C2: on success the length of every category of the result is the number of distinct
trimmed expressions submitted on the lines bearing the marker of that category. -/
theorem ParseRpmdepsOutput_length_eq_distinct (x : External ρ ε) (ord : Nat → RangeOrder)
    (output : GoString) (md : RPMMetaData ρ)
    (h : ParseRpmdepsOutput x ord output = (md, none)) (c : Category) :
    (md.rels c).length = ((submitted c output).dedup).length := by
  obtain ⟨ks, h1, h2, h3⟩ := ParseRpmdepsOutput_ok x ord output md h c
  have hperm : ks.Perm (submitted c output).dedup :=
    (List.perm_ext_iff_of_nodup (nodup_of_pairwise_strLess h1) (List.nodup_dedup _)).mpr
      fun e => (h2 e).trans List.mem_dedup.symm
  rw [← h3.length_eq, hperm.length_eq]

set_option maxRecDepth 1000000 in
theorem ParseRpmdepsOutput_length_eq_distinct_witness :
    ((ParseRpmdepsOutput sampleExternal insertionOrder twoFilesOutput).1.Requires.length = 20 ∧
     (ParseRpmdepsOutput sampleExternal insertionOrder twoFilesOutput).1.Provides.length = 6 ∧
     (ParseRpmdepsOutput sampleExternal insertionOrder twoFilesOutput).2 = none) ∧
    ((ParseRpmdepsOutput sampleExternal insertionOrder twoFilesOutput).1.rels .requires).length =
      ((submitted .requires twoFilesOutput).dedup).length :=
  ⟨by decide!,
    ParseRpmdepsOutput_length_eq_distinct sampleExternal insertionOrder twoFilesOutput _
      (by decide!) .requires⟩

/-- C3: on success every category of the result is ordered by strictly increasing
byte-wise lexicographic order of the expression texts its relations were parsed from
(these texts being the expressions submitted for the category), and a category for which
no expression was submitted is empty. -/
theorem ParseRpmdepsOutput_sorted (x : External ρ ε) (ord : Nat → RangeOrder)
    (output : GoString) (md : RPMMetaData ρ)
    (h : ParseRpmdepsOutput x ord output = (md, none)) (c : Category) :
    (∃ ks : List GoString,
      List.Forall₂ (fun e r => x.NewRelation e = .ok r) ks (md.rels c) ∧
      (∀ e, e ∈ ks ↔ e ∈ submitted c output) ∧
      ks.Pairwise (fun a b => strLess a b = true)) ∧
    (submitted c output = [] → md.rels c = []) := by
  obtain ⟨ks, h1, h2, h3⟩ := ParseRpmdepsOutput_ok x ord output md h c
  refine ⟨⟨ks, h3, h2, h1⟩, fun hs => ?_⟩
  have hks : ks = [] := by
    apply List.eq_nil_iff_forall_not_mem.mpr
    intro e he
    have := (h2 e).mp he
    rw [hs] at this
    exact List.not_mem_nil e this
  subst hks
  exact List.forall₂_nil_left_iff.mp h3

set_option maxRecDepth 1000000 in
theorem ParseRpmdepsOutput_sorted_witness :
    (submitted .conflicts twoFilesOutput = [] ∧
     (ParseRpmdepsOutput sampleExternal reverseOrder twoFilesOutput).1.Conflicts = [] ∧
     ((ParseRpmdepsOutput sampleExternal reverseOrder twoFilesOutput).1.Provides.map
        fun r => r.Name) =
       [ascii "libabrt.so.0()(64bit)", ascii "libabrt.so.0(LIBRABRT_2.14.5)(64bit)",
        ascii "libacl.so.1()(64bit)", ascii "libacl.so.1(ACL_1.0)(64bit)",
        ascii "libacl.so.1(ACL_1.1)(64bit)", ascii "libacl.so.1(ACL_1.2)(64bit)"]) ∧
    ∀ c, (∃ ks : List GoString,
      List.Forall₂ (fun e r => sampleExternal.NewRelation e = .ok r) ks
        ((ParseRpmdepsOutput sampleExternal reverseOrder twoFilesOutput).1.rels c) ∧
      (∀ e, e ∈ ks ↔ e ∈ submitted c twoFilesOutput) ∧
      ks.Pairwise (fun a b => strLess a b = true)) ∧
    (submitted c twoFilesOutput = [] →
      (ParseRpmdepsOutput sampleExternal reverseOrder twoFilesOutput).1.rels c = []) :=
  ⟨by decide!,
    ParseRpmdepsOutput_sorted sampleExternal reverseOrder twoFilesOutput _ (by decide!)⟩

/-- C6: the result of `ParseRpmdepsOutput` is a function of the scanner output alone: two
runs on the same output return the same error, or the same six lists with the same
elements in the same order, whatever order the `range` loops over the intermediate maps
take in either run. -/
theorem ParseRpmdepsOutput_deterministic (x : External ρ ε) (ord₁ ord₂ : Nat → RangeOrder)
    (output : GoString) :
    ParseRpmdepsOutput x ord₁ output = ParseRpmdepsOutput x ord₂ output := by
  unfold ParseRpmdepsOutput
  cases parseLines x {} (SplitSeq output 10) with
  | error err => rfl
  | ok deps =>
    simp only
    rw [mapValues_order_irrelevant (ord₁ 0) (ord₂ 0), mapValues_order_irrelevant (ord₁ 1) (ord₂ 1),
      mapValues_order_irrelevant (ord₁ 2) (ord₂ 2), mapValues_order_irrelevant (ord₁ 3) (ord₂ 3),
      mapValues_order_irrelevant (ord₁ 4) (ord₂ 4), mapValues_order_irrelevant (ord₁ 5) (ord₂ 5)]

/-- C4: an ignored line (first byte after trimming a decimal digit, or none of the six
markers, hence also `S`, `e`, `o`) leaves the six maps unchanged and raises no error
whatever the maps hold, and deleting it from the input, wherever it stands, leaves the
result of `ParseRpmdepsOutput`, value or error, unchanged. -/
theorem ParseRpmdepsOutput_deleteLine_ignored (x : External ρ ε) (ord : Nat → RangeOrder)
    (output : GoString) (i : Nat) (line : GoString)
    (hline : (SplitSeq output 10)[i]? = some line) (hign : ignoredLine line = true) :
    (∀ deps : Deps ρ, parseLine x deps line = .ok deps) ∧
    ParseRpmdepsOutput x ord (deleteLine output i) = ParseRpmdepsOutput x ord output := by
  refine ⟨fun deps => parseLine_of_ignoredLine x deps hign, ?_⟩
  unfold ParseRpmdepsOutput
  rw [parseLines_deleteLine x output i hline hign]

set_option maxRecDepth 1000000 in
theorem ParseRpmdepsOutput_deleteLine_ignored_witness :
    ((SplitSeq twoFilesOutput 10)[22]? = some (ascii "    S libsupplement.so()(64bit)") ∧
      ignoredLine (ascii "    S libsupplement.so()(64bit)") = true) ∧
    (∀ deps : Deps Relation,
      parseLine sampleExternal deps (ascii "    S libsupplement.so()(64bit)") = .ok deps) ∧
    ParseRpmdepsOutput sampleExternal insertionOrder (deleteLine twoFilesOutput 22) =
      ParseRpmdepsOutput sampleExternal insertionOrder twoFilesOutput :=
  ⟨⟨by decide!, by decide!⟩,
    ParseRpmdepsOutput_deleteLine_ignored sampleExternal insertionOrder twoFilesOutput 22
      (ascii "    S libsupplement.so()(64bit)") (by decide!) (by decide!)⟩

/-- C5, as stated, fails: for the input `R a"b <> 1`, whose expression `a"b <> 1` does not
parse, the message of the returned error holds the expression as `%q` renders it,
`"a\"b <> 1"`, and does not contain the expression itself. -/
theorem ParseRpmdepsOutput_invalid_dependency_raw_absent :
    (SplitSeq quotedOutput 10 = [quotedOutput] ∧
      TrimSpace quotedOutput = marker .requires :: 32 :: quotedExpr ∧
      TrimSpace (32 :: quotedExpr) = quotedExpr ∧
      sampleExternal.NewRelation quotedExpr = .error (ascii "unknown sense value: <>")) ∧
    ParseRpmdepsOutput sampleExternal insertionOrder quotedOutput =
      ({}, some (.wrapError quotedMessage (ascii "unknown sense value: <>"))) ∧
    ¬ (quotedExpr <:+: quotedMessage) := by
  refine ⟨⟨by decide, by decide, by decide, rfl⟩, by decide, by decide⟩

/-- C5, amended: when the expression of some line with a recognized marker does not
parse, `ParseRpmdepsOutput` fails as a whole: it returns the empty metadata record
together with the error `invalid dependency %q: %w` built from the expression of the first
such line.  The message is `invalid dependency `, the expression as `%q` renders it
(`strconv.Quote`), `: ` and the text of the parser's error; it contains the expression
itself when the expression consists of printable ASCII characters other than the double
quote and the backslash. -/
theorem ParseRpmdepsOutput_invalid_dependency (x : External ρ ε) (ord : Nat → RangeOrder)
    (output : GoString)
    (hbad : ∃ line ∈ SplitSeq output 10, ∃ c rest err,
      TrimSpace line = marker c :: rest ∧ x.NewRelation (TrimSpace rest) = .error err) :
    ∃ pre line post c e err msg,
      SplitSeq output 10 = pre ++ line :: post ∧
      (∀ l ∈ pre, ∀ c' e', lineExpr c' l = some e' → ∃ r, x.NewRelation e' = .ok r) ∧
      lineExpr c line = some e ∧ x.NewRelation e = .error err ∧
      ParseRpmdepsOutput x ord output = ({}, some (.wrapError msg err)) ∧
      msg = ascii "invalid dependency " ++ Quote x.isPrint e ++ ascii ": " ++ x.Error err ∧
      Quote x.isPrint e <:+: msg ∧
      (plainASCII e = true → e <:+: msg) := by
  have hbad' : ∃ line ∈ SplitSeq output 10, ∃ c e err,
      lineExpr c line = some e ∧ x.NewRelation e = .error err := by
    obtain ⟨line, hl, c, rest, err, h1, h2⟩ := hbad
    exact ⟨line, hl, c, TrimSpace rest, err, lineExpr_eq_some.mpr ⟨rest, h1, rfl⟩, h2⟩
  obtain ⟨pre, line, post, c, e, err, h1, h2, h3, h4, h5⟩ :=
    parseLines_error x _ {} (Deps.parsed_empty x) Deps.nodupKeys_empty hbad'
  refine ⟨pre, line, post, c, e, err, _, h1, h2, h3, h4, ?_, rfl, ?_, ?_⟩
  · unfold ParseRpmdepsOutput
    rw [h5]
    rfl
  · exact ⟨ascii "invalid dependency ", ascii ": " ++ x.Error err, by simp⟩
  · intro hplain
    refine ⟨ascii "invalid dependency " ++ [34], 34 :: (ascii ": " ++ x.Error err), ?_⟩
    rw [Quote_plain x.isPrint e hplain]
    simp

set_option maxRecDepth 1000000 in
theorem ParseRpmdepsOutput_invalid_dependency_witness :
    ParseRpmdepsOutput sampleExternal insertionOrder (ascii "0 /bin/a\n P a\n R b <> 1\n P c") =
      ({}, some (.wrapError (ascii "invalid dependency \"b <> 1\": unknown sense value: <>")
        (ascii "unknown sense value: <>"))) ∧
    ∃ pre line post c e err msg,
      SplitSeq (ascii "0 /bin/a\n P a\n R b <> 1\n P c") 10 = pre ++ line :: post ∧
      (∀ l ∈ pre, ∀ c' e', lineExpr c' l = some e' →
        ∃ r, sampleExternal.NewRelation e' = .ok r) ∧
      lineExpr c line = some e ∧ sampleExternal.NewRelation e = .error err ∧
      ParseRpmdepsOutput sampleExternal insertionOrder (ascii "0 /bin/a\n P a\n R b <> 1\n P c") =
        ({}, some (.wrapError msg err)) ∧
      msg = ascii "invalid dependency " ++ Quote sampleExternal.isPrint e ++ ascii ": " ++
        sampleExternal.Error err ∧
      Quote sampleExternal.isPrint e <:+: msg ∧
      (plainASCII e = true → e <:+: msg) :=
  ⟨by decide!,
    ParseRpmdepsOutput_invalid_dependency sampleExternal insertionOrder
      (ascii "0 /bin/a\n P a\n R b <> 1\n P c")
      ⟨ascii " R b <> 1", by decide!, .requires, ascii " b <> 1",
        ascii "unknown sense value: <>", by decide!, rfl⟩⟩

/-! ## Claims about the metadata functions of bin/roci.go -/

/-- C7: after `AddRpmMetadataFromImageLabels` and the field-by-field merge of
`RpmFromLayer`, each of name, version, release, summary, description, URL and licence is
the configured value when that is not empty, otherwise the value of the field's label
when the label is present, otherwise empty; OS and compressor are `linux` and `zstd`. -/
theorem mergedMetaData_precedence (img : Image ε) (rpmPkg : RpmPackage) (md : RPMMetaData ρ)
    (h : mergedMetaData img rpmPkg = .ok md) :
    ∃ inspect, img.Inspect = .ok inspect ∧
      md.Name = mergePrecedence rpmPkg.Name (inspect.Labels (ascii "org.rpm.name")) ∧
      md.Version = mergePrecedence rpmPkg.Version
        (inspect.Labels (ascii "org.opencontainers.image.version")) ∧
      md.Release = mergePrecedence rpmPkg.Release (inspect.Labels (ascii "org.rpm.release")) ∧
      md.Summary = mergePrecedence rpmPkg.Summary
        (inspect.Labels (ascii "org.opencontainers.image.title")) ∧
      md.Description = mergePrecedence rpmPkg.Description
        (inspect.Labels (ascii "org.opencontainers.image.description")) ∧
      md.URL = mergePrecedence rpmPkg.URL (inspect.Labels (ascii "org.opencontainers.image.url")) ∧
      md.Licence = mergePrecedence rpmPkg.License
        (inspect.Labels (ascii "org.opencontainers.image.licenses")) ∧
      md.OS = ascii "linux" ∧ md.Compressor = ascii "zstd" := by
  obtain ⟨inspect, e, hi, hmd⟩ := mergedMetaData_ok img rpmPkg md h
  subst hmd
  exact ⟨inspect, hi, rfl, rfl, rfl, rfl, rfl, rfl, rfl, rfl, rfl⟩

set_option maxRecDepth 100000 in
theorem mergedMetaData_precedence_witness :
    ((mergedMetaData (sampleImage sampleLabels) samplePackage :
        Except (GoError GoString) (RPMMetaData Relation)) =
      .ok { Name := ascii "configured", Summary := ascii "from the configuration",
            Version := ascii "1.2", Epoch := 3, OS := ascii "linux",
            Compressor := ascii "zstd" }) ∧
    ∃ inspect, (sampleImage sampleLabels).Inspect = .ok inspect ∧
      ascii "configured" =
        mergePrecedence samplePackage.Name (inspect.Labels (ascii "org.rpm.name")) ∧
      ascii "1.2" = mergePrecedence samplePackage.Version
        (inspect.Labels (ascii "org.opencontainers.image.version")) ∧
      [] = mergePrecedence samplePackage.Release (inspect.Labels (ascii "org.rpm.release")) ∧
      ascii "from the configuration" = mergePrecedence samplePackage.Summary
        (inspect.Labels (ascii "org.opencontainers.image.title")) ∧
      [] = mergePrecedence samplePackage.Description
        (inspect.Labels (ascii "org.opencontainers.image.description")) ∧
      [] = mergePrecedence samplePackage.URL
        (inspect.Labels (ascii "org.opencontainers.image.url")) ∧
      [] = mergePrecedence samplePackage.License
        (inspect.Labels (ascii "org.opencontainers.image.licenses")) ∧
      ascii "linux" = ascii "linux" ∧ ascii "zstd" = ascii "zstd" :=
  ⟨rfl,
    @mergedMetaData_precedence Relation GoString (sampleImage sampleLabels) samplePackage
      { Name := ascii "configured", Summary := ascii "from the configuration",
        Version := ascii "1.2", Epoch := 3, OS := ascii "linux", Compressor := ascii "zstd" }
      rfl⟩

/-- C8, the defect: for the label `org.rpm.epoch = "-1"` `AddRpmMetadataFromImageLabels`
does not fail; it returns no error and the epoch 4294967295. -/
theorem AddRpmMetadataFromImageLabels_negative_epoch :
    AddRpmMetadataFromImageLabels ({} : RPMMetaData Relation)
        (sampleImage [(ascii "org.rpm.epoch", ascii "-1")]) =
      ({ Epoch := 4294967295 }, (none : Option (GoError GoString))) := by
  decide

/-- For every image whose label `org.rpm.epoch` is `"-1"`, `AddRpmMetadataFromImageLabels`
returns no error and sets the epoch 4294967295, whatever the other labels are. -/
theorem AddRpmMetadataFromImageLabels_minus_one (m : RPMMetaData ρ) (img : Image ε)
    (inspect : ImageInspectInfo) (hi : img.Inspect = .ok inspect)
    (he : inspect.Labels (ascii "org.rpm.epoch") = some (ascii "-1")) :
    AddRpmMetadataFromImageLabels m img = (withLabels m inspect 4294967295, none) := by
  rw [AddRpmMetadataFromImageLabels_eq, hi]
  simp only [he]
  rfl

/-- C9: relation union.  (1) When `AddRpmDependenciesFromConfig` succeeds, each category
of its result is the list the metadata already held followed by the relations parsed from
the expressions the configuration declares for the category, in declaration order; for
requires these are `Requires`, `Requires(pre)`, `(post)`, `(preun)`, `(postun)`,
`(pretrans)`, `(posttrans)`, `(verify)`, `(interp)`, `(meta)` concatenated in this order.
(2) When `RpmFromLayer` succeeds and `rpmpack.NewRPM` keeps the relations it is given
at the front of its lists, each category of the final package is the relations declared
in the configuration, then what `NewRPM` added, then the relations extracted by the
scanner: all are present and the declared ones precede the extracted ones. -/
theorem RpmFromLayer_relation_union (env : BuildEnv ρ ε φ) (rpmPkg : RpmPackage) :
    (∀ m m' : RPMMetaData ρ,
      AddRpmDependenciesFromConfig env.toExternal m rpmPkg = (m', none) →
      ∀ c, ∃ cfg, List.Forall₂ (fun e r => env.NewRelation e = .ok r) (declared rpmPkg c) cfg ∧
        m'.rels c = m.rels c ++ cfg) ∧
    (∀ (id : GoString) (rpm : RPM ρ φ), RpmFromLayer env id rpmPkg = .ok rpm →
      (∀ m r, env.NewRPM m = .ok r → ∀ c, m.rels c <+: r.toRPMMetaData.rels c) →
      ∃ filelist autoMetadata, AutoReqProv env id filelist = (autoMetadata, none) ∧
        ∀ c, ∃ cfg added,
          List.Forall₂ (fun e r => env.NewRelation e = .ok r) (declared rpmPkg c) cfg ∧
          rpm.toRPMMetaData.rels c = cfg ++ added ++ autoMetadata.rels c) := by
  have part1 : ∀ m m' : RPMMetaData ρ,
      AddRpmDependenciesFromConfig env.toExternal m rpmPkg = (m', none) →
      ∀ c, ∃ cfg, List.Forall₂ (fun e r => env.NewRelation e = .ok r) (declared rpmPkg c) cfg ∧
        m'.rels c = m.rels c ++ cfg := by
    intro m m' h c
    rcases AddRpmDependenciesFromConfig_cases env.toExternal m rpmPkg with
      ⟨⟨err, herr⟩, _⟩ | ⟨_, cfg, hcfg, heq⟩
    · rw [herr] at h; cases h
    · rw [heq] at h
      simp only [Prod.mk.injEq, and_true] at h
      subst h
      exact ⟨cfg c, hcfg c, by cases c <;> rfl⟩
  refine ⟨part1, ?_⟩
  intro id rpm h hNew
  obtain ⟨img, metaData, m, rpm0, filelist, files, autoMetadata, _, h2, h3, h4, _, h6, hrpm⟩ :=
    RpmFromLayer_ok env id rpmPkg rpm h
  refine ⟨filelist, autoMetadata, h6, fun c => ?_⟩
  obtain ⟨cfg, hcfg, hm⟩ := part1 metaData m h3 c
  rw [mergedMetaData_rels img rpmPkg metaData h2 c, List.nil_append] at hm
  obtain ⟨added, hadded⟩ := hNew m rpm0 h4 c
  refine ⟨cfg, added, hcfg, ?_⟩
  rw [hm] at hadded
  rw [hadded, hrpm]
  cases c <;> rfl

set_option maxRecDepth 100000 in
theorem RpmFromLayer_relation_union_witness :
    (∃ rpm, RpmFromLayer sampleEnv (ascii "img") samplePackage = .ok rpm ∧
      rpm.Requires.map (fun r => r.Name) =
        [ascii "bash", ascii "glibc", ascii "shadow", ascii "filesystem",
         ascii "required.so()(64bit)"] ∧
      rpm.Provides.map (fun r => r.Name) =
        [ascii "tool", ascii "configured", ascii "provided.so()(64bit)"]) ∧
    (∀ m r, sampleEnv.NewRPM m = .ok r → ∀ c, m.rels c <+: r.toRPMMetaData.rels c) ∧
    (∀ m m' : RPMMetaData Relation,
      AddRpmDependenciesFromConfig sampleEnv.toExternal m samplePackage = (m', none) →
      ∀ c, ∃ cfg,
        List.Forall₂ (fun e r => sampleEnv.NewRelation e = .ok r) (declared samplePackage c) cfg ∧
        m'.rels c = m.rels c ++ cfg) ∧
    (∀ (id : GoString) (rpm : RPM Relation (List RPMFile)),
      RpmFromLayer sampleEnv id samplePackage = .ok rpm →
      (∀ m r, sampleEnv.NewRPM m = .ok r → ∀ c, m.rels c <+: r.toRPMMetaData.rels c) →
      ∃ filelist autoMetadata, AutoReqProv sampleEnv id filelist = (autoMetadata, none) ∧
        ∀ c, ∃ cfg added,
          List.Forall₂ (fun e r => sampleEnv.NewRelation e = .ok r) (declared samplePackage c)
            cfg ∧
          rpm.toRPMMetaData.rels c = cfg ++ added ++ autoMetadata.rels c) :=
  ⟨⟨_, rfl, by decide, by decide⟩,
    fun m r h c => by
      simp only [sampleEnv, sampleNewRPM, Except.ok.injEq] at h
      subst h
      cases c
      · exact List.prefix_refl _
      · exact List.prefix_refl _
      · exact List.prefix_append _ _
      · exact List.prefix_refl _
      · exact List.prefix_refl _
      · exact List.prefix_refl _,
    RpmFromLayer_relation_union sampleEnv samplePackage⟩

/-- C10: `AddRpmDependenciesFromConfig` returns an error exactly when some expression
declared in `Provides`, in one of the ten requires lists, in `Obsoletes`, `Conflicts`,
`Recommends` or `Suggests` does not parse; with an error it returns the empty metadata
record; without one it returns `m` with only the six relation lists changed. -/
theorem AddRpmDependenciesFromConfig_fails_iff (x : External ρ ε) (m : RPMMetaData ρ)
    (rpmPkg : RpmPackage) :
    ((AddRpmDependenciesFromConfig x m rpmPkg).2 ≠ none ↔
      ∃ c, ∃ e ∈ declared rpmPkg c, ∃ err, x.NewRelation e = .error err) ∧
    ((AddRpmDependenciesFromConfig x m rpmPkg).2 ≠ none →
      (AddRpmDependenciesFromConfig x m rpmPkg).1 = {}) ∧
    ((AddRpmDependenciesFromConfig x m rpmPkg).2 = none →
      { (AddRpmDependenciesFromConfig x m rpmPkg).1 with
        Provides := m.Provides
        Requires := m.Requires
        Obsoletes := m.Obsoletes
        Conflicts := m.Conflicts
        Recommends := m.Recommends
        Suggests := m.Suggests } = m) := by
  rcases AddRpmDependenciesFromConfig_cases x m rpmPkg with
    ⟨⟨err, herr⟩, hbad⟩ | ⟨hall, cfg, _, heq⟩
  · rw [herr]
    refine ⟨⟨fun _ => hbad, fun _ => by simp⟩, fun _ => rfl, fun h => ?_⟩
    simp at h
  · rw [heq]
    refine ⟨⟨fun h => absurd rfl h, ?_⟩, fun h => absurd rfl h, fun _ => rfl⟩
    rintro ⟨c, e, he, err, herr⟩
    obtain ⟨r, hr⟩ := hall c e he
    rw [hr] at herr
    cases herr

theorem AddRpmDependenciesFromConfig_fails_iff_witness :
    AddRpmDependenciesFromConfig sampleExternal
        ({ Name := ascii "pkg", Epoch := 2, Requires := [⟨ascii "kept", [], []⟩] })
        { samplePackage with Conflicts := [ascii "other <> 1"] } =
      ({}, some (.ext (ascii "unknown sense value: <>"))) ∧
    ((AddRpmDependenciesFromConfig sampleExternal
        ({ Name := ascii "pkg", Epoch := 2, Requires := [⟨ascii "kept", [], []⟩] })
        samplePackage).2 = none ∧
      (AddRpmDependenciesFromConfig sampleExternal
        ({ Name := ascii "pkg", Epoch := 2, Requires := [⟨ascii "kept", [], []⟩] })
        samplePackage).1.Name = ascii "pkg") ∧
    ((AddRpmDependenciesFromConfig sampleExternal
        ({ Name := ascii "pkg", Epoch := 2, Requires := [⟨ascii "kept", [], []⟩] })
        { samplePackage with Conflicts := [ascii "other <> 1"] }).2 ≠ none ↔
      ∃ c, ∃ e ∈ declared { samplePackage with Conflicts := [ascii "other <> 1"] } c,
        ∃ err, sampleExternal.NewRelation e = .error err) :=
  ⟨by decide, by decide,
    (AddRpmDependenciesFromConfig_fails_iff sampleExternal
      ({ Name := ascii "pkg", Epoch := 2, Requires := [⟨ascii "kept", [], []⟩] })
      { samplePackage with Conflicts := [ascii "other <> 1"] }).1⟩

/-! ## Claims about `WalkTopLayerTree`, the configured epoch and the order of the lines -/

/-- C11, the defect: for an image with no layer `WalkTopLayerTree` does not return a
layer-count error; it indexes the empty list at -1 and panics.  With one layer it walks
that layer, with two layers the second one only. -/
theorem WalkTopLayerTree_layer_selection :
    WalkTopLayerTree sampleEnv (layeredImage []) recordCall [] =
      ([], some (.indexOutOfRange (-1) 0)) ∧
    WalkTopLayerTree sampleEnv (layeredImage [ascii "one"]) recordCall [] =
      ([(ascii "/one", some [1, 2, 3])], none) ∧
    WalkTopLayerTree sampleEnv (layeredImage [ascii "base", ascii "top"]) recordCall [] =
      ([(ascii "/top", some [1, 2, 3])], none) := by
  decide

/-- C12, the defect: on an archive with a directory, a symlink, a hardlink, a character
device, a block device, a fifo and a regular file, the callback is invoked for the
regular file only; the six other nodes are not reported. -/
theorem WalkTopLayerTree_entry_kinds :
    WalkTopLayerTree sampleEnv kindsImage recordCall [] =
      ([(ascii "/file", some [1, 2, 3])], none) := by
  decide

/-- C13, the defect: a configured epoch of 2^32 over a label epoch of 3 gives the final
epoch 0, and a configured epoch of -1 gives 4294967295: the conversion to `uint32` wraps
around, so the final epoch is neither the configured value nor the label's. -/
theorem mergedMetaData_epoch_wraps :
    ((mergedMetaData (sampleImage sampleLabels) { Epoch := 4294967296 } :
        Except (GoError GoString) (RPMMetaData Relation)) =
      .ok { Name := ascii "labelled", Summary := ascii "from the label", Version := ascii "1.2",
            Epoch := 0, OS := ascii "linux", Compressor := ascii "zstd" }) ∧
    ((mergedMetaData (sampleImage sampleLabels) { Epoch := -1 } :
        Except (GoError GoString) (RPMMetaData Relation)) =
      .ok { Name := ascii "labelled", Summary := ascii "from the label", Version := ascii "1.2",
            Epoch := 4294967295, OS := ascii "linux", Compressor := ascii "zstd" }) ∧
    ((mergedMetaData (sampleImage sampleLabels) { Epoch := 0 } :
        Except (GoError GoString) (RPMMetaData Relation)) =
      .ok { Name := ascii "labelled", Summary := ascii "from the label", Version := ascii "1.2",
            Epoch := 3, OS := ascii "linux", Compressor := ascii "zstd" }) :=
  ⟨rfl, rfl, rfl⟩

/-- C14: two inputs that both parse successfully give the same result in every category
as soon as they submit the same set of (marker, trimmed expression) pairs; in particular
when they have the same set of lines, repetitions aside, and when the lines of one are a
rearrangement of the lines of the other. -/
theorem ParseRpmdepsOutput_order_independent (x : External ρ ε) (ord₁ ord₂ : Nat → RangeOrder)
    (out₁ out₂ : GoString) (md₁ md₂ : RPMMetaData ρ)
    (h₁ : ParseRpmdepsOutput x ord₁ out₁ = (md₁, none))
    (h₂ : ParseRpmdepsOutput x ord₂ out₂ = (md₂, none)) :
    ((∀ c e, e ∈ submitted c out₁ ↔ e ∈ submitted c out₂) → md₁ = md₂) ∧
    ((∀ line, line ∈ SplitSeq out₁ 10 ↔ line ∈ SplitSeq out₂ 10) → md₁ = md₂) ∧
    ((SplitSeq out₁ 10).Perm (SplitSeq out₂ 10) → md₁ = md₂) := by
  have key := ParseRpmdepsOutput_eq_of_submitted x ord₁ ord₂ out₁ out₂ md₁ md₂ h₁ h₂
  exact ⟨key, fun h => key (submitted_of_lines h),
    fun h => key (submitted_of_lines fun _ => h.mem_iff)⟩

set_option maxRecDepth 100000 in
theorem ParseRpmdepsOutput_order_independent_witness :
    ((ParseRpmdepsOutput sampleExternal insertionOrder allTypesOutput).2 = none ∧
      (ParseRpmdepsOutput sampleExternal reverseOrder allTypesShuffled).2 = none ∧
      SplitSeq allTypesOutput 10 ≠ SplitSeq allTypesShuffled 10 ∧
      ∀ c, (∀ e ∈ submitted c allTypesOutput, e ∈ submitted c allTypesShuffled) ∧
        ∀ e ∈ submitted c allTypesShuffled, e ∈ submitted c allTypesOutput) ∧
    (ParseRpmdepsOutput sampleExternal insertionOrder allTypesOutput).1 =
      (ParseRpmdepsOutput sampleExternal reverseOrder allTypesShuffled).1 :=
  have hs : ∀ c, (∀ e ∈ submitted c allTypesOutput, e ∈ submitted c allTypesShuffled) ∧
      ∀ e ∈ submitted c allTypesShuffled, e ∈ submitted c allTypesOutput :=
    fun c => by cases c <;> decide
  ⟨⟨by decide, by decide, by decide, hs⟩,
    (ParseRpmdepsOutput_order_independent sampleExternal insertionOrder reverseOrder
      allTypesOutput allTypesShuffled _ _ rfl rfl).1
      fun c e => ⟨(hs c).1 e, (hs c).2 e⟩⟩

end Roci
